import Mathlib

/-!
Verification development for the adapt-authoring-jsonschema module.

The JavaScript source is shallowly embedded: JSON documents (schemas and
data objects) are modelled by the inductive type `JVal`, the lodash
helpers the module relies on (`_.defaultsDeep`, `_.merge`, `_.uniq`) are
modelled as pure functions on `JVal`, and the module's operations
(`applyPatch`, `getObjectDefaults`, `validate`, `sanitise`,
`registerSchema`, `deregisterSchema`, `extendSchema`,
`getSchema`/`loadSchema`, the format safety check) are translated from
`lib/jsonSchemaModule.js`.  The external Ajv validator engine (schema
compilation, meta-validation, error production and keyword coercions) is
out of scope for the module itself and is therefore a parameter of the
embedding.
-/

/-- A JavaScript/JSON value.  `undef` models JavaScript `undefined`,
which the module's lodash helpers treat differently from an absent key
(e.g. `_.mapValues` produces keys bound to `undefined`).  Objects are
association lists of fields in insertion order, matching JavaScript
object key ordering; arrays are lists. -/
inductive JVal where
  | undef
  | null
  | bool (b : Bool)
  | num (n : Int)
  | str (s : String)
  | arr (items : List JVal)
  | obj (fields : List (String × JVal))
deriving Repr

mutual
/-- Structural equality test on `JVal` (used both to derive decidable
equality and to model the SameValueZero comparison of `_.uniq`). -/
def jvalBeq : JVal → JVal → Bool
  | JVal.undef, JVal.undef => true
  | JVal.null, JVal.null => true
  | JVal.bool a, JVal.bool b => a = b
  | JVal.num a, JVal.num b => a = b
  | JVal.str a, JVal.str b => a = b
  | JVal.arr a, JVal.arr b => jarrBeq a b
  | JVal.obj a, JVal.obj b => jobjBeq a b
  | _, _ => false

def jarrBeq : List JVal → List JVal → Bool
  | [], [] => true
  | a :: as, b :: bs => jvalBeq a b && jarrBeq as bs
  | _, _ => false

def jobjBeq : List (String × JVal) → List (String × JVal) → Bool
  | [], [] => true
  | (k, v) :: as, (k', v') :: bs => decide (k = k') && jvalBeq v v' && jobjBeq as bs
  | _, _ => false
end

mutual
theorem jvalBeq_refl : ∀ a, jvalBeq a a = true
  | JVal.undef => rfl
  | JVal.null => rfl
  | JVal.bool b => by simp [jvalBeq]
  | JVal.num n => by simp [jvalBeq]
  | JVal.str s => by simp [jvalBeq]
  | JVal.arr l => by simp [jvalBeq, jarrBeq_refl l]
  | JVal.obj l => by simp [jvalBeq, jobjBeq_refl l]

theorem jarrBeq_refl : ∀ l, jarrBeq l l = true
  | [] => rfl
  | a :: as => by simp [jarrBeq, jvalBeq_refl a, jarrBeq_refl as]

theorem jobjBeq_refl : ∀ l, jobjBeq l l = true
  | [] => rfl
  | (k, v) :: as => by simp [jobjBeq, jvalBeq_refl v, jobjBeq_refl as]
end

mutual
theorem jvalBeq_sound : ∀ a b, jvalBeq a b = true → a = b := by
  intro a b h
  cases a <;> cases b <;> simp_all [jvalBeq]
  case arr.arr l1 l2 => exact jarrBeq_sound l1 l2 h
  case obj.obj l1 l2 => exact jobjBeq_sound l1 l2 h

theorem jarrBeq_sound : ∀ a b, jarrBeq a b = true → a = b := by
  intro a b h
  cases a <;> cases b <;> simp_all [jarrBeq]
  case cons.cons x xs y ys =>
    exact ⟨jvalBeq_sound x y h.1, jarrBeq_sound xs ys h.2⟩

theorem jobjBeq_sound : ∀ a b, jobjBeq a b = true → a = b
  | [], [], _ => rfl
  | [], _ :: _, h => by simp [jobjBeq] at h
  | _ :: _, [], h => by simp [jobjBeq] at h
  | (k, v) :: ps, (k', v') :: qs, h => by
      simp only [jobjBeq, Bool.and_eq_true, decide_eq_true_eq] at h
      obtain ⟨⟨h1, h2⟩, h3⟩ := h
      have hv := jvalBeq_sound v v' h2
      have hr := jobjBeq_sound ps qs h3
      subst h1; subst hv; subst hr; rfl
end

instance : DecidableEq JVal := fun a b =>
  if h : jvalBeq a b = true then isTrue (jvalBeq_sound a b h)
  else isFalse (fun he => h (he ▸ jvalBeq_refl a))

/-- First-match lookup in an association list (JavaScript object
property access by key; well-formed objects have unique keys). -/
def flookup {α : Type} (k : String) : List (String × α) → Option α
  | [] => none
  | (k', v) :: rest => if k' = k then some v else flookup k rest

/-- JavaScript property assignment `o[k] = v` on an association list:
replaces the value in place if the key exists, otherwise appends the new
key (JavaScript objects keep insertion order). -/
def fset {α : Type} (k : String) (v : α) : List (String × α) → List (String × α)
  | [] => [(k, v)]
  | (k', v') :: rest => if k' = k then (k, v) :: rest else (k', v') :: fset k v rest

/-- Property access `o?.[k]`: a lookup on objects, `undefined` (here:
`none`) on every other value. -/
def jget : JVal → String → Option JVal
  | JVal.obj fields, k => flookup k fields
  | _, _ => none

/-- Two-step optional chain `o?.[k1]?.[k2]`. -/
def jget2 (o : JVal) (k1 k2 : String) : Option JVal :=
  match jget o k1 with
  | some v => jget v k2
  | none => none

/-- Three-step optional chain `o?.[k1]?.[k2]?.[k3]`. -/
def jget3 (o : JVal) (k1 k2 k3 : String) : Option JVal :=
  match jget2 o k1 k2 with
  | some v => jget v k3
  | none => none

/-- Property assignment `o[k] = v`; no effect on non-objects (where a
JavaScript assignment would be silently dropped or throw). -/
def jset : JVal → String → JVal → JVal
  | JVal.obj fields, k, v => JVal.obj (fset k v fields)
  | o, _, _ => o

/-- JavaScript truthiness of a value. -/
def jTruthyV : JVal → Bool
  | JVal.undef => false
  | JVal.null => false
  | JVal.bool b => b
  | JVal.num n => decide (n ≠ 0)
  | JVal.str s => decide (s ≠ "")
  | JVal.arr _ => true
  | JVal.obj _ => true

/-- Truthiness of a possibly-absent value (`undefined` is falsy). -/
def jTruthy : Option JVal → Bool
  | none => false
  | some v => jTruthyV v

/-- The nullish-coalescing operator `a ?? b` on possibly-absent values. -/
def orNullish (a b : Option JVal) : Option JVal :=
  match a with
  | some JVal.null => b
  | some JVal.undef => b
  | none => b
  | some v => some v

/-- Whether a value is a JavaScript reference type (object or array):
lodash merges into these in place; merges into primitives are lost. -/
def isRefType : JVal → Bool
  | JVal.arr _ => true
  | JVal.obj _ => true
  | _ => false

mutual
/-- `_.defaultsDeep(dest, src)` value merge (lodash `customDefaultsMerge`
semantics): when both sides are objects the fields are merged recursively
(dest keys keep their order, new src keys are appended); when both sides
are arrays they are merged index-wise (a well-known lodash behaviour:
`_.defaultsDeep({a:[1]},{a:[2,3]})` gives `{a:[1,3]}`); a present
`undefined` is filled from src; any other present dest value wins.
Mixed object/array collisions (which produce non-JSON exotica in
JavaScript) keep the dest value; no claim exercises them. -/
def ddVal : JVal → JVal → JVal
  | JVal.obj df, JVal.obj sf =>
      JVal.obj (ddFields df sf ++ sf.filter (fun p => (flookup p.1 df).isNone))
  | JVal.arr dl, JVal.arr sl => JVal.arr (ddList dl sl)
  | JVal.undef, s => s
  | d, _ => d

def ddFields : List (String × JVal) → List (String × JVal) → List (String × JVal)
  | [], _ => []
  | (k, dv) :: rest, sf =>
      (k, match flookup k sf with
          | some sv => ddVal dv sv
          | none => dv) :: ddFields rest sf

def ddList : List JVal → List JVal → List JVal
  | [], sl => sl
  | d :: drest, [] => d :: drest
  | d :: drest, s :: srest => ddVal d s :: ddList drest srest
end

mutual
/-- `_.merge(dest, src)` value merge: recursive where both sides are the
same container kind, `undefined` src values are skipped, otherwise src
wins.  (Only reached from `applyPatch` when `overwriteProperties` is
set, which no registered caller uses.) -/
def mVal : JVal → JVal → JVal
  | JVal.obj df, JVal.obj sf =>
      JVal.obj (mFields df sf ++ sf.filter (fun p => (flookup p.1 df).isNone))
  | JVal.arr dl, JVal.arr sl => JVal.arr (mList dl sl)
  | d, JVal.undef => d
  | _, s => s

def mFields : List (String × JVal) → List (String × JVal) → List (String × JVal)
  | [], _ => []
  | (k, dv) :: rest, sf =>
      (k, match flookup k sf with
          | some sv => mVal dv sv
          | none => dv) :: mFields rest sf

def mList : List JVal → List JVal → List JVal
  | [], sl => sl
  | d :: drest, [] => d :: drest
  | d :: drest, s :: srest => mVal d s :: mList drest srest
end

/-- `_.cloneDeep`: in this pure value model a deep copy is the value
itself (aliasing and in-place mutation are modelled separately, see the
heap-level `validateAt`). -/
def cloneDeep (v : JVal) : JVal := v

/-- `_.uniq` with an accumulator of already-emitted values: keeps the
first occurrence of each value (SameValueZero comparison). -/
def jUniqAux : List JVal → List JVal → List JVal
  | [], _ => []
  | x :: xs, seen =>
      if seen.any (fun y => jvalBeq x y) then jUniqAux xs seen
      else x :: jUniqAux xs (x :: seen)

/-- `_.uniq(l)`. -/
def jUniq (l : List JVal) : List JVal := jUniqAux l []

/-- Options of `applyPatch` with the `_.defaults` defaults applied
(`lib/jsonSchemaModule.js` line 551). -/
structure PatchOptions where
  extendAnnotations : Bool := true
  overwriteProperties : Bool := false
  strict : Bool := true
deriving Repr, DecidableEq

/-- `patchSchema?.$patch?.with || patchSchema?.$merge?.with ||
!opts.strict && patchSchema` (line 552): the first truthy operand. -/
def patchBody (strict : Bool) (patch : JVal) : Option JVal :=
  if jTruthy (jget2 patch "$patch" "with") then jget2 patch "$patch" "with"
  else if jTruthy (jget2 patch "$merge" "with") then jget2 patch "$merge" "with"
  else if !strict && jTruthyV patch then some patch
  else none

/-- One annotation copy: `if(patchSchema[p]) sourceSchema[p] = patchSchema[p]`. -/
def copyAnnot (k : String) (source patch : JVal) : JVal :=
  match jget patch k with
  | some v => if jTruthyV v then jset source k v else source
  | none => source

/-- Lines 557-561: copy `$anchor`, `title`, `description` in order. -/
def copyAnnotList (source patch : JVal) : JVal :=
  copyAnnot "description" (copyAnnot "title" (copyAnnot "$anchor" source patch) patch) patch

/-- Lines 562-565: `mergeFunc(sourceSchema.properties, patchData.properties)`.
The lodash merge functions mutate their first argument in place, so the
result only lands when the source has a reference-typed `properties`
value; otherwise the merged object is discarded and the source is
unchanged. -/
def mergePropsStep (source body : JVal) (overwrite : Bool) : JVal :=
  match jget body "properties" with
  | some bp =>
      if jTruthyV bp then
        match jget source "properties" with
        | some sp =>
            if isRefType sp then
              jset source "properties" (if overwrite then mVal sp bp else ddVal sp bp)
            else source
        | none => source
      else source
  | none => source

/-- The JavaScript `x?.length` truthiness test used on composition
keywords (line 567): non-empty arrays and non-empty strings pass. -/
def jLengthTruthy : Option JVal → Bool
  | some (JVal.arr l) => decide (l.length ≠ 0)
  | some (JVal.str s) => decide (s.length ≠ 0)
  | _ => false

/-- `(sourceSchema[p] ?? [])` viewed as the receiver of `.concat`; a
non-array, non-nullish receiver would throw in JavaScript and is never
produced by the claims (modelled as a singleton for totality). -/
def asConcatReceiver : Option JVal → List JVal
  | none => []
  | some JVal.null => []
  | some JVal.undef => []
  | some (JVal.arr l) => l
  | some v => [v]

/-- `.concat(x)` argument: arrays are spread, other values appended. -/
def concatArg : Option JVal → List JVal
  | some (JVal.arr l) => l
  | some v => [v]
  | none => []

/-- Lines 566-568 for a single keyword `k` (`allOf`/`anyOf`/`oneOf`):
`sourceSchema[k] = (sourceSchema[k] ?? []).concat(_.cloneDeep(patchData[k]))`
when `patchData[k]?.length` is truthy. -/
def concatStep (k : String) (source body : JVal) : JVal :=
  if jLengthTruthy (jget body k) then
    jset source k (JVal.arr (asConcatReceiver (jget source k) ++ concatArg ((jget body k).map cloneDeep)))
  else source

/-- The `['allOf','anyOf','oneOf'].forEach` loop, in order. -/
def concatAll (source body : JVal) : JVal :=
  concatStep "oneOf" (concatStep "anyOf" (concatStep "allOf" source body) body) body

/-- An array spread `[...(x ?? [])]`; a non-array, non-nullish operand
would throw in JavaScript (modelled as empty for totality — the claims
only spread arrays or absent values). -/
def spreadList : Option JVal → List JVal
  | some (JVal.arr l) => l
  | _ => []

/-- Lines 569-571: `sourceSchema.required =
_.uniq([...(sourceSchema.required ?? []), ...patchData.required])` when
`patchData.required` is truthy. -/
def requiredStep (source body : JVal) : JVal :=
  if jTruthy (jget body "required") then
    jset source "required"
      (JVal.arr (jUniq (spreadList (jget source "required") ++ spreadList (jget body "required"))))
  else source

/-- Outcome of one `applyPatch` call: success, the warn-and-skip branch
for a fragment without a usable body, or the TypeError the warning
interpolation itself would raise on a nullish fragment. -/
inductive PatchLog where
  | applied
  | warned
  | typeErr
deriving Repr, DecidableEq

/-- `applyPatch(sourceSchema, patchSchema, options)`
(`lib/jsonSchemaModule.js` lines 550-573): resolves the patch body,
copies annotations, merges `properties`, concatenates the composition
keywords and unions + dedups `required`.  A fragment without a usable
body is logged and skipped, leaving the source untouched. -/
def applyPatch (source patch : JVal) (opts : PatchOptions := {}) : JVal × PatchLog :=
  match patchBody opts.strict patch with
  | none =>
      if patch = JVal.null ∨ patch = JVal.undef then (source, PatchLog.typeErr)
      else (source, PatchLog.warned)
  | some body =>
      let s1 := if opts.extendAnnotations then copyAnnotList source patch else source
      let s2 := mergePropsStep s1 body opts.overwriteProperties
      let s3 := concatAll s2 body
      (requiredStep s3 body, PatchLog.applied)

theorem sizeOf_flookup {k : String} : ∀ {fields : List (String × JVal)} {v : JVal},
    flookup k fields = some v → sizeOf v < sizeOf fields
  | [], v, h => by simp [flookup] at h
  | (k', v') :: rest, v, h => by
      by_cases hk : k' = k
      · simp [flookup, hk] at h
        subst h
        simp
        omega
      · simp [flookup, hk] at h
        have := @sizeOf_flookup _ rest _ h
        simp
        omega

theorem sizeOf_jget {o v : JVal} {k : String} (h : jget o k = some v) :
    sizeOf v < sizeOf o := by
  cases o <;> simp [jget] at h
  case obj fields =>
    have := sizeOf_flookup h
    simp
    omega

/-- `schema.properties ?? schema.$merge?.with?.properties ??
schema.$patch?.with?.properties` (`getObjectDefaults`, line 436). -/
def schemaProps (schema : JVal) : Option JVal :=
  orNullish (jget schema "properties")
    (orNullish (match jget2 schema "$merge" "with" with
                | some w => jget w "properties"
                | none => none)
               (match jget2 schema "$patch" "with" with
                | some w => jget w "properties"
                | none => none))

mutual
/-- The body of `getObjectDefaults` applied to a resolved `properties`
value: `_.mapValues(props, s => s.properties ? this.getObjectDefaults(s)
: s.default)` — `_.mapValues` of a non-object is the empty object, and a
property config without a `default` maps to `undefined`. -/
def godProps : JVal → JVal
  | JVal.obj fields => JVal.obj (godFields fields)
  | _ => JVal.obj []
  termination_by v => sizeOf v

def godFields : List (String × JVal) → List (String × JVal)
  | [] => []
  | (k, s) :: rest =>
      (k, match h : jget s "properties" with
          | some p => if jTruthyV p then godProps p else (jget s "default").getD JVal.undef
          | none => (jget s "default").getD JVal.undef) :: godFields rest
  termination_by l => sizeOf l
  decreasing_by
    all_goals simp
    all_goals first
      | omega
      | (have hsz := sizeOf_jget h; omega)
end

/-- `getObjectDefaults(schema)` (`lib/jsonSchemaModule.js` lines
435-438).  A nested recursive call is only made when `s.properties` is
truthy, in which case the nullish chain inside the recursive call always
resolves to that same `properties` value, so recursing on the resolved
value is faithful. -/
def getObjectDefaults (schema : JVal) : JVal :=
  match schemaProps schema with
  | some p => godProps p
  | none => JVal.obj []

/-- Substring test on character lists (JavaScript `String.includes`). -/
def listContainsSub (needle : List Char) : List Char → Bool
  | [] => needle.isEmpty
  | c :: rest => needle.isPrefixOf (c :: rest) || listContainsSub needle rest

/-- `hay.includes(needle)`. -/
def msgIncludes (needle hay : String) : Bool := listContainsSub needle.data hay.data

/-- One Ajv validation error as consumed by `validate`: its
`instancePath` and `message` fields. -/
structure AjvError where
  instancePath : String
  message : String
deriving Repr, DecidableEq

/-- The external compiled validator function: given the data it returns
the (possibly coerced, since Ajv keywords may mutate the data in place)
data, the boolean verdict, and the error list exposed on `.errors`. -/
structure AjvEngine where
  run : JVal → JVal × Bool × List AjvError

/-- A validator that accepts everything and performs no coercion. -/
def idEngine : AjvEngine := ⟨fun v => (v, true, [])⟩

/-- Options of `validate` with the `_.defaults` defaults applied
(`lib/jsonSchemaModule.js` line 612). -/
structure ValidateOptions where
  useDefaults : Bool := true
  ignoreRequired : Bool := false
deriving Repr, DecidableEq

/-- Outcome of `validate`: the validated data, or the thrown
`VALIDATION_FAILED` error carrying the schema name, the joined error
text and the (possibly partially coerced) data. -/
inductive ValidateResult where
  | ok (data : JVal)
  | failed (schemaName : Option JVal) (errors : String) (data : JVal)
deriving Repr, DecidableEq

/-- Rendering of one error (line 621):
`e.instancePath ? e.instancePath + space + e.message : e.message`. -/
def renderAjvError (e : AjvError) : String :=
  if e.instancePath ≠ "" then e.instancePath ++ " " ++ e.message else e.message

/-- Lines 619-622: filter, render and join the validator errors.  Note
the filter keeps an error when `ignoreRequired` is NOT set, or when its
message CONTAINS the word required. -/
def joinedErrors (ignoreRequired : Bool) (errs : List AjvError) : String :=
  ((errs.filter (fun e => !ignoreRequired || msgIncludes "required" e.message)).map
    renderAjvError).foldl (fun s e => s ++ e ++ ", ") ""

/-- `validate(validateFunc, dataToValidate, options)`
(`lib/jsonSchemaModule.js` lines 611-628): apply the schema defaults
under a deep clone of the caller data with `_.defaultsDeep`, run the
compiled validator, and throw `VALIDATION_FAILED` when the filtered,
joined error text is non-empty. -/
def validate (engine : AjvEngine) (schema : JVal) (dataToValidate : JVal)
    (opts : ValidateOptions := {}) : ValidateResult :=
  let dflts := if opts.useDefaults then getObjectDefaults schema else JVal.obj []
  let data := ddVal (cloneDeep dataToValidate) dflts
  match engine.run data with
  | (data2, true, _) => ValidateResult.ok data2
  | (data2, false, errs) =>
      let errors := joinedErrors opts.ignoreRequired errs
      if errors.length ≠ 0 then ValidateResult.failed (jget schema "$anchor") errors data2
      else ValidateResult.ok data2

/-- A heap of JavaScript object cells, for stating frame properties
about in-place mutation; references are indices. -/
abbrev JHeap : Type := List JVal

def heapRead (h : JHeap) (r : Nat) : JVal := h.getD r JVal.undef

def heapWrite (h : JHeap) (r : Nat) (v : JVal) : JHeap := h.set r v

def heapAlloc (h : JHeap) (v : JVal) : JHeap × Nat := (h ++ [v], h.length)

/-- `validate` again, with the mutation structure of the source made
explicit on a heap: `_.cloneDeep(dataToValidate)` allocates a fresh cell
holding a copy of the caller's object, `_.defaultsDeep` mutates its
first argument (the fresh cell), and the compiled validator's modifying
keywords coerce the data in that same cell.  The caller's cell is never
written.  Returns the final heap, the reference returned (or attached to
`VALIDATION_FAILED`), and the result. -/
def validateAt (engine : AjvEngine) (schema : JVal) (opts : ValidateOptions)
    (h : JHeap) (dataRef : Nat) : JHeap × Nat × ValidateResult :=
  let dflts := if opts.useDefaults then getObjectDefaults schema else JVal.obj []
  let (h1, cloneRef) := heapAlloc h (cloneDeep (heapRead h dataRef))
  let h2 := heapWrite h1 cloneRef (ddVal (heapRead h1 cloneRef) dflts)
  match engine.run (heapRead h2 cloneRef) with
  | (coerced, ok, errs) =>
      let h3 := heapWrite h2 cloneRef coerced
      let res :=
        if ok then ValidateResult.ok (heapRead h3 cloneRef)
        else
          let errors := joinedErrors opts.ignoreRequired errs
          if errors.length ≠ 0 then
            ValidateResult.failed (jget schema "$anchor") errors (heapRead h3 cloneRef)
          else ValidateResult.ok (heapRead h3 cloneRef)
      (h3, cloneRef, res)

/-- Options of `sanitise` with the `_.defaults` defaults applied
(`lib/jsonSchemaModule.js` line 638). -/
structure SanitiseOptions where
  isInternal : Bool := false
  isReadOnly : Bool := false
  sanitiseHtml : Bool := true
  strict : Bool := true
deriving Repr, DecidableEq

/-- Outcome of `sanitise`: the sanitised data, the thrown
`MODIFY_PROTECTED_ATTR` error (carrying the offending attribute), or the
TypeError `Object.entries` raises on a schema with a nullish
`properties`. -/
inductive SanitiseResult where
  | ok (data : JVal)
  | modifyProtectedAttr (attr : String)
  | typeErr
deriving Repr, DecidableEq

/-- `xss(value, whitelist)` on a property value: the external filter
(parameter `xssF`, whitelist already applied) on strings; the
stringification of non-string inputs is elided (the claims only pass
strings to the filter). -/
def xssApply (xssF : String → String) : JVal → JVal
  | JVal.str s => JVal.str (xssF s)
  | v => v

mutual
/-- The `Object.entries(schema.properties).forEach` walk of `sanitise`
(`lib/jsonSchemaModule.js` lines 642-660), processing the property list
in order against the data object.  Returns the accumulated memo entries
and, when a protected attribute was hit under `strict`, the attribute
whose `MODIFY_PROTECTED_ATTR` throw aborts the remaining iterations.
Data keys absent from the input are skipped (sanitise never invents
values). -/
def sanitiseEntries (xssF : String → String) (opts : SanitiseOptions) (data : JVal) :
    List (String × JVal) → List (String × JVal) × Option String
  | [] => ([], none)
  | (prop, config) :: rest =>
      match jget data prop with
      | none => sanitiseEntries xssF opts data rest
      | some value =>
          let omitProp := (opts.isInternal && jTruthy (jget config "isInternal")) ||
                          (opts.isReadOnly && jTruthy (jget config "isReadOnly"))
          if omitProp then
            if opts.strict then ([], some prop)
            else sanitiseEntries xssF opts data rest
          else
            let entry :=
              if jget config "type" = some (JVal.str "object") && jTruthy (jget config "properties") then
                -- the recursive call is an un-awaited async invocation: its
                -- synchronous mutations of `memo[prop]` land, but a nested
                -- MODIFY_PROTECTED_ATTR rejection is discarded, so the
                -- partially-filled nested memo is kept
                (prop, JVal.obj (sanitiseNested xssF opts config value).1)
              else if jget config "type" = some (JVal.str "string") && opts.sanitiseHtml then
                (prop, xssApply xssF value)
              else (prop, value)
            match sanitiseEntries xssF opts data rest with
            | (restOut, thrown) => (entry :: restOut, thrown)
  termination_by l => sizeOf l

/-- The recursive `this.sanitise(config, value, opts, memo[prop])` call:
the nested schema is the property config itself, whose truthy
`properties` value is walked (Object.entries of a truthy non-object is
empty). -/
def sanitiseNested (xssF : String → String) (opts : SanitiseOptions) (config value : JVal) :
    List (String × JVal) × Option String :=
  match h : jget config "properties" with
  | some (JVal.obj pfields) => sanitiseEntries xssF opts value pfields
  | _ => ([], none)
  termination_by sizeOf config
  decreasing_by
    have := sizeOf_jget h
    simp at this ⊢
    omega
end

/-- `sanitise(schemaName, dataToSanitise, options, memo)`
(`lib/jsonSchemaModule.js` lines 637-662) for an already-resolved schema
object. -/
def sanitise (xssF : String → String) (schema data : JVal)
    (opts : SanitiseOptions := {}) : SanitiseResult :=
  match jget schema "properties" with
  | some (JVal.obj pfields) =>
      match sanitiseEntries xssF opts data pfields with
      | (memo, none) => SanitiseResult.ok (JVal.obj memo)
      | (_, some attr) => SanitiseResult.modifyProtectedAttr attr
  | some JVal.null => SanitiseResult.typeErr
  | none => SanitiseResult.typeErr
  | some JVal.undef => SanitiseResult.typeErr
  | some _ => SanitiseResult.ok (JVal.obj [])

/-- A string-format matcher, abstracted to its matching behaviour (the
regular-expression engine is external). -/
structure RegexFmt where
  accepts : String → Bool

/-- The permissive catch-all pattern `/.*/` ("defaultRegExp", line 341 of
the source): it matches any string. -/
def defaultRegExp : RegexFmt := ⟨fun _ => true⟩

/-- The ReDoS check at the end of `initFormats`
(`lib/jsonSchemaModule.js` lines 409-415): walk the registered formats;
every format whose pattern the external `safe-regex` analysis rejects is
replaced by the permissive default via `addFormat`, and a warning is
logged.  Returns the resulting format table and the warning log. -/
def checkFormats (safeRegex : RegexFmt → Bool) :
    List (String × RegexFmt) → List (String × RegexFmt) × List String
  | [] => ([], [])
  | (name, re) :: rest =>
      let (fs, ws) := checkFormats safeRegex rest
      if safeRegex re then ((name, re) :: fs, ws)
      else ((name, defaultRegExp) :: fs,
            ("unsafe RegExp for format " ++ name ++ ", using default") :: ws)

/-- A compiled schema validation function as far as the module observes
it: Ajv attaches the compiled source document on `.schema`. -/
structure CompiledSchema where
  schema : JVal
deriving Repr, DecidableEq

/-- The registry state of `JsonSchemaModule`: `schemaPaths` (name to
file path), `schemaExtensions` (base name to extension names), and the
`SchemaCache` (its enabled flag and its entries; the time-based pruning
is external to the claims and elided). -/
structure RegState where
  schemaPaths : List (String × String)
  schemaExtensions : List (String × List String)
  cacheEnabled : Bool
  cache : List (String × CompiledSchema)
deriving Repr, DecidableEq

/-- The typed errors the registry operations can raise, plus the
ReferenceError a JavaScript undefined-identifier access raises, plus
fuel exhaustion of the interpreter (which only occurs on cyclic `$merge`
chains, a configuration error). -/
inductive RegErr where
  | invalidParams
  | schemaLoadFailed
  | invalidSchema
  | referenceError
  | notFound
  | fuelExhausted
deriving Repr, DecidableEq

/-- `extendSchema(baseSchemaName, extSchemaName)`
(`lib/jsonSchemaModule.js` lines 501-510) for string arguments (the
non-string INVALID_PARAMS guard cannot fire on typed strings): create
the extension list if missing and push the extension name.  The base
schema does not need to be registered. -/
def extendSchema (st : RegState) (baseSchemaName extSchemaName : String) : RegState :=
  { st with schemaExtensions :=
      (fset baseSchemaName
        ((flookup baseSchemaName st.schemaExtensions).getD [] ++ [extSchemaName])
        st.schemaExtensions) }

/-- `deregisterSchema(name)` (`lib/jsonSchemaModule.js` lines 492-495):
delete the `schemaPaths` entry if present.  Nothing else is touched. -/
def deregisterSchema (st : RegState) (name : String) : RegState :=
  { st with schemaPaths := st.schemaPaths.filter (fun p => p.1 ≠ name) }

/-- Lines 478-485 of `registerSchema`: record the path, then auto-extend
when the document declares `$patch` (an `extendSchema` INVALID_PARAMS
throw on a missing or non-string `$patch.source.$ref` leaves the
recorded path behind, as the path assignment precedes the call). -/
def registerSchemaFinish (st : RegState) (json : JVal) (name filePath : String) :
    RegState × Except RegErr (String × String) :=
  let st2 := { st with schemaPaths := fset name filePath st.schemaPaths }
  if jTruthy (jget json "$patch") then
    match jget3 json "$patch" "source" "$ref" with
    | some (JVal.str r) => (extendSchema st2 r name, Except.ok (name, filePath))
    | _ => (st2, Except.error RegErr.invalidParams)
  else (st2, Except.ok (name, filePath))

/-- `registerSchema(filePath, options)` (`lib/jsonSchemaModule.js` lines
458-486).  `fsys` maps file paths to parsed JSON documents (an
unreadable or unparsable path is absent); `metaErrors` is the external
Ajv meta-schema check used by `validateSchema` (lines 578-587).  The
state is returned alongside the outcome so that mutations preceding a
throw are kept, as in JavaScript. -/
def registerSchema (fsys : List (String × JVal)) (metaErrors : JVal → List String)
    (st : RegState) (filePath : String) (replace : Bool) :
    RegState × Except RegErr (String × String) :=
  match flookup filePath fsys with
  | none => (st, Except.error RegErr.schemaLoadFailed)
  | some json =>
      match jget json "$anchor" with
      | some (JVal.str name) =>
          if name = "" then (st, Except.error RegErr.invalidSchema)
          else if metaErrors json ≠ [] then (st, Except.error RegErr.invalidSchema)
          else
            match flookup name st.schemaPaths with
            | some _ =>
                if replace then
                  registerSchemaFinish (deregisterSchema st name) json name filePath
                else
                  -- the source throws SCHEMA_EXISTS.setData({ name, filepath }),
                  -- but `filepath` is an undefined identifier (the variable is
                  -- `filePath`), so evaluating the object literal raises a
                  -- ReferenceError before SCHEMA_EXISTS is constructed
                  (st, Except.error RegErr.referenceError)
            | none => registerSchemaFinish st json name filePath
      | _ => (st, Except.error RegErr.invalidSchema)

/-- Options accepted by `getSchema`/`loadSchema`; the JavaScript
`options.compiled !== false` / `options.useCache !== false` /
`applyExtensions !== false` tests make an absent option behave as
`true`.  The `extensionFilter` callback is not modelled (no modelled
scenario passes one), so extensions are applied iff `applyExtensions`. -/
structure LoadOptions where
  compiled : Bool := true
  useCache : Bool := true
  applyExtensions : Bool := true
deriving Repr, DecidableEq

/-- What `getSchema` returns: the compiled validation function, or (for
`compiled: false`) the raw built schema document. -/
inductive GetResult where
  | fn (c : CompiledSchema)
  | raw (s : JVal)
deriving Repr, DecidableEq

/-- `SchemaCache.get` (`lib/SchemaCache.js`): prune (time-based,
elided), then return the entry only when the cache is enabled. -/
def cacheGet (st : RegState) (name : String) : Option CompiledSchema :=
  if st.cacheEnabled then flookup name st.cache else none

/-- `SchemaCache.set`: store under the compiled document's `$anchor`
(entries whose schema lacks a string anchor are not modelled). -/
def cacheSet (st : RegState) (c : CompiledSchema) : RegState :=
  match jget c.schema "$anchor" with
  | some (JVal.str a) => { st with cache := fset a c st.cache }
  | _ => st

/-- `options.compiled !== false ? schema : schema.schema` (line 602). -/
def mkGetResult (opts : LoadOptions) (c : CompiledSchema) : GetResult :=
  if opts.compiled then GetResult.fn c else GetResult.raw c.schema

/-- View any `getSchema` result as a raw schema document (the compiled
branch carries the document on `.schema`). -/
def asRawSchema : GetResult → JVal
  | GetResult.raw s => s
  | GetResult.fn c => c.schema

mutual
/-- `getSchema(schemaName, options)` (`lib/jsonSchemaModule.js` lines
595-603): reject unknown names with NOT_FOUND, consult the cache when
`useCache !== false`, otherwise build via `loadSchema`, and return the
compiled function or (for `compiled: false`) the raw document.  Fuel
bounds the recursion through the inheritance graph; it runs out only on
cyclic `$merge` chains. -/
def getSchema (fuel : Nat) (fsys : List (String × JVal)) (st : RegState)
    (name : String) (opts : LoadOptions) : Except RegErr (GetResult × RegState) :=
  match fuel with
  | 0 => Except.error RegErr.fuelExhausted
  | fuel + 1 =>
      if (flookup name st.schemaPaths).isNone then Except.error RegErr.notFound
      else
        match (if opts.useCache then cacheGet st name else none) with
        | some c => Except.ok (mkGetResult opts c, st)
        | none =>
            match loadSchema fuel fsys st name opts with
            | Except.ok (c, st') => Except.ok (mkGetResult opts c, st')
            | Except.error e => Except.error e

/-- `loadSchema(schemaName, options)` (`lib/jsonSchemaModule.js` lines
517-542): read and parse the file; merge the `$merge` parent (patched
with the child as fragment) or, for every non-base schema, patch the
base schema underneath (`strict: false`, `extendAnnotations: false`);
apply the registered extension schemas (each built through `getSchema`,
its document patched on with `extendAnnotations: false`); compile the
result (the compiled function carries the document) and cache it. -/
def loadSchema (fuel : Nat) (fsys : List (String × JVal)) (st : RegState)
    (name : String) (opts : LoadOptions) : Except RegErr (CompiledSchema × RegState) :=
  match fuel with
  | 0 => Except.error RegErr.fuelExhausted
  | fuel + 1 =>
      match (flookup name st.schemaPaths).bind (fun p => flookup p fsys) with
      | none => Except.error RegErr.schemaLoadFailed
      | some schema0 =>
          let step1 : Except RegErr (JVal × RegState) :=
            match jget3 schema0 "$merge" "source" "$ref" with
            | some (JVal.str ref) =>
                if ref ≠ "" then
                  match getSchema fuel fsys st ref { opts with compiled := false } with
                  | Except.ok (r, st1) =>
                      Except.ok ((applyPatch (asRawSchema r) schema0 {}).1, st1)
                  | Except.error e => Except.error e
                else loadSchemaBase fuel fsys st schema0
            | some v =>
                if jTruthyV v then Except.error RegErr.invalidParams
                else loadSchemaBase fuel fsys st schema0
            | none => loadSchemaBase fuel fsys st schema0
          match step1 with
          | Except.error e => Except.error e
          | Except.ok (schema1, st1) =>
              match (match flookup name st1.schemaExtensions with
                     | some exts => applyExtensionList fuel fsys st1 opts exts schema1
                     | none => Except.ok (schema1, st1)) with
              | Except.error e => Except.error e
              | Except.ok (schema2, st2) =>
                  -- `this.validator.compileAsync(JSON.parse(JSON.stringify(schema)))`:
                  -- the JSON round trip deep-copies the document (undefined-valued
                  -- keys, which no schema document here contains, would be dropped)
                  let compiled : CompiledSchema := ⟨schema2⟩
                  Except.ok (compiled, cacheSet st2 compiled)

/-- The base-schema branch of `loadSchema` (lines 529-531): every schema
whose `$anchor` is not the base name gets the base schema patched on
with `strict: false` and `extendAnnotations: false`. -/
def loadSchemaBase (fuel : Nat) (fsys : List (String × JVal)) (st : RegState)
    (schema0 : JVal) : Except RegErr (JVal × RegState) :=
  match fuel with
  | 0 => Except.error RegErr.fuelExhausted
  | fuel + 1 =>
      if jget schema0 "$anchor" = some (JVal.str "base") then Except.ok (schema0, st)
      else
        match getSchema fuel fsys st "base" { compiled := false } with
        | Except.ok (r, st1) =>
            Except.ok ((applyPatch schema0 (asRawSchema r)
              { strict := false, extendAnnotations := false }).1, st1)
        | Except.error e => Except.error e

/-- The extension loop of `loadSchema` (lines 532-538): build each
extension through `getSchema` (passing through `useCache`), destructure
its document from the compiled function, and patch it on with
`extendAnnotations: false` when extensions are being applied.  The
`Promise.all` resolves the extensions in registration order in the
single-threaded model. -/
def applyExtensionList (fuel : Nat) (fsys : List (String × JVal)) (st : RegState)
    (opts : LoadOptions) (exts : List String) (schema : JVal) :
    Except RegErr (JVal × RegState) :=
  match fuel with
  | 0 => Except.error RegErr.fuelExhausted
  | fuel + 1 =>
      match exts with
      | [] => Except.ok (schema, st)
      | e :: rest =>
          match getSchema fuel fsys st e { useCache := opts.useCache } with
          | Except.ok (r, st') =>
              let extSchema := asRawSchema r
              let schema' :=
                if opts.applyExtensions then
                  (applyPatch schema extSchema { extendAnnotations := false }).1
                else schema
              applyExtensionList fuel fsys st' opts rest schema'
          | Except.error err => Except.error err
end

theorem flookup_fset_self {α : Type} (k : String) (v : α) :
    ∀ l : List (String × α), flookup k (fset k v l) = some v
  | [] => by simp [fset, flookup]
  | (k', v') :: rest => by
      by_cases h : k' = k
      · simp [fset, h, flookup]
      · simp [fset, h, flookup, flookup_fset_self k v rest]

theorem flookup_fset_ne {α : Type} {k k' : String} (h : k' ≠ k) (v : α) :
    ∀ l : List (String × α), flookup k (fset k' v l) = flookup k l
  | [] => by simp [fset, flookup, h]
  | (k'', v'') :: rest => by
      by_cases h2 : k'' = k'
      · subst h2
        simp [fset, flookup, h]
      · by_cases h3 : k'' = k
        · subst h3
          simp [fset, h2, flookup, Ne.symm h]
        · simp [fset, h2, flookup, h3, flookup_fset_ne h v rest]

theorem flookup_append {α : Type} (k : String) :
    ∀ a b : List (String × α), flookup k (a ++ b) =
      (match flookup k a with
       | some v => some v
       | none => flookup k b)
  | [], _ => by simp [flookup]
  | (k', v') :: rest, b => by
      by_cases h : k' = k
      · simp [flookup, h]
      · simp [flookup, h, flookup_append k rest b]

theorem jget_jset_self {f : List (String × JVal)} {k : String} {v : JVal} :
    jget (jset (JVal.obj f) k v) k = some v := by
  simp [jset, jget, flookup_fset_self]

theorem jget_jset_ne {k' k : String} (h : k' ≠ k) (s v : JVal) :
    jget (jset s k' v) k = jget s k := by
  cases s <;> simp [jset, jget]
  exact flookup_fset_ne h v _

theorem jset_obj_isObj {f : List (String × JVal)} {k : String} {v : JVal} :
    ∃ g, jset (JVal.obj f) k v = JVal.obj g := ⟨fset k v f, rfl⟩

theorem flookup_ddFields (k : String) :
    ∀ d s : List (String × JVal), flookup k (ddFields d s) =
      (flookup k d).map (fun dv =>
        match flookup k s with
        | some sv => ddVal dv sv
        | none => dv)
  | [], _ => by simp [ddFields, flookup]
  | (k', dv) :: rest, s => by
      by_cases h : k' = k
      · subst h
        simp [ddFields, flookup]
      · simp [ddFields, flookup, h, flookup_ddFields k rest s]

theorem flookup_filter_keys {α : Type} (k : String) (P : String → Bool) (hP : P k = true) :
    ∀ s : List (String × α), flookup k (s.filter (fun p => P p.1)) = flookup k s
  | [] => by simp [flookup]
  | (k', v') :: rest => by
      by_cases h : k' = k
      · subst h
        simp [flookup, hP, List.filter]
      · by_cases h2 : P k' = true
        · simp [flookup, h, List.filter, h2, flookup_filter_keys k P hP rest]
        · simp only [List.filter, h2]
          simp [flookup, h, flookup_filter_keys k P hP rest]

/-- The key lookup law of the `_.defaultsDeep` object merge: a key
present in dest is (recursively) merged with the matching src value; a
key absent from dest is taken from src. -/
theorem ddVal_obj_lookup (k : String) (d s : List (String × JVal)) :
    jget (ddVal (JVal.obj d) (JVal.obj s)) k =
      (match flookup k d with
       | some dv =>
           some (match flookup k s with
                 | some sv => ddVal dv sv
                 | none => dv)
       | none => flookup k s) := by
  show flookup k (ddFields d s ++ s.filter (fun p => (flookup p.1 d).isNone)) = _
  rw [flookup_append, flookup_ddFields]
  cases h : flookup k d with
  | some dv => simp
  | none =>
      simp only [Option.map_none]
      exact flookup_filter_keys k (fun x => (flookup x d).isNone) (by simp [h]) s

/-- A non-container, non-undefined dest value always survives a
`_.defaultsDeep` merge. -/
theorem ddVal_scalar {v : JVal} (h1 : isRefType v = false) (h2 : v ≠ JVal.undef) (s : JVal) :
    ddVal v s = v := by
  cases v <;> simp_all [isRefType] <;> cases s <;> simp [ddVal]

theorem flookup_godFields (k : String) :
    ∀ fields : List (String × JVal), flookup k (godFields fields) =
      (flookup k fields).map (fun s =>
        match jget s "properties" with
        | some p => if jTruthyV p then godProps p else (jget s "default").getD JVal.undef
        | none => (jget s "default").getD JVal.undef)
  | [] => by simp [godFields, flookup]
  | (k', s) :: rest => by
      by_cases h : k' = k
      · subst h
        simp only [godFields, flookup, if_pos rfl, Option.map_some']
        rcases hj : jget s "properties" with _ | p <;> simp [hj]
      · simp [godFields, flookup, h, flookup_godFields k rest]

theorem jUniqAux_subset {x : JVal} : ∀ {l seen : List JVal}, x ∈ jUniqAux l seen → x ∈ l
  | [], _, h => by simp [jUniqAux] at h
  | y :: ys, seen, h => by
      by_cases hy : seen.any (fun z => jvalBeq y z) = true
      · simp only [jUniqAux, hy, if_pos] at h
        exact List.mem_cons_of_mem y (jUniqAux_subset h)
      · simp only [jUniqAux, hy, if_neg, Bool.false_eq_true, not_false_iff] at h
        rcases List.mem_cons.mp h with h1 | h1
        · exact h1 ▸ List.mem_cons_self y ys
        · exact List.mem_cons_of_mem y (jUniqAux_subset h1)

theorem jUniqAux_mem_of_mem {x : JVal} :
    ∀ {l seen : List JVal}, x ∈ l → x ∈ jUniqAux l seen ∨ x ∈ seen
  | [], _, h => by simp at h
  | y :: ys, seen, h => by
      by_cases hy : seen.any (fun z => jvalBeq y z) = true
      · rcases List.mem_cons.mp h with h1 | h1
        · subst h1
          rcases List.any_eq_true.mp hy with ⟨z, hz, hbz⟩
          exact Or.inr ((jvalBeq_sound x z hbz) ▸ hz)
        · simp only [jUniqAux, hy, if_pos]
          exact jUniqAux_mem_of_mem h1
      · simp only [jUniqAux, hy, if_neg, Bool.false_eq_true, not_false_iff]
        rcases List.mem_cons.mp h with h1 | h1
        · exact Or.inl (h1 ▸ List.mem_cons_self y _)
        · rcases @jUniqAux_mem_of_mem _ _ (y :: seen) h1 with h2 | h2
          · exact Or.inl (List.mem_cons_of_mem y h2)
          · rcases List.mem_cons.mp h2 with h3 | h3
            · exact Or.inl (h3 ▸ List.mem_cons_self y _)
            · exact Or.inr h3

theorem jUniqAux_not_mem_seen {x : JVal} :
    ∀ {l seen : List JVal}, x ∈ seen → x ∉ jUniqAux l seen
  | [], _, _ => by simp [jUniqAux]
  | y :: ys, seen, hseen => by
      by_cases hy : seen.any (fun z => jvalBeq y z) = true
      · simp only [jUniqAux, hy, if_pos]
        exact jUniqAux_not_mem_seen hseen
      · simp only [jUniqAux, hy, if_neg, Bool.false_eq_true, not_false_iff]
        intro hmem
        rcases List.mem_cons.mp hmem with h1 | h1
        · subst h1
          exact hy (List.any_eq_true.mpr ⟨x, hseen, jvalBeq_refl x⟩)
        · exact jUniqAux_not_mem_seen (List.mem_cons_of_mem y hseen) h1

theorem jUniqAux_nodup : ∀ (l seen : List JVal), (jUniqAux l seen).Nodup
  | [], _ => by simp [jUniqAux]
  | y :: ys, seen => by
      by_cases hy : seen.any (fun z => jvalBeq y z) = true
      · simp only [jUniqAux, hy, if_pos]
        exact jUniqAux_nodup ys seen
      · simp only [jUniqAux, hy, if_neg, Bool.false_eq_true, not_false_iff]
        exact List.nodup_cons.mpr
          ⟨jUniqAux_not_mem_seen (List.mem_cons_self y seen), jUniqAux_nodup ys (y :: seen)⟩

/-- `_.uniq` output has no duplicates. -/
theorem jUniq_nodup (l : List JVal) : (jUniq l).Nodup := jUniqAux_nodup l []

/-- `_.uniq` output has exactly the input's members. -/
theorem mem_jUniq {x : JVal} {l : List JVal} : x ∈ jUniq l ↔ x ∈ l := by
  constructor
  · exact jUniqAux_subset
  · intro h
    rcases @jUniqAux_mem_of_mem _ _ [] h with h1 | h1
    · exact h1
    · simp at h1

/-- Whether a value is an object. -/
def isObjV : JVal → Bool
  | JVal.obj _ => true
  | _ => false

theorem isObjV_jset {s : JVal} (h : isObjV s = true) (k : String) (v : JVal) :
    isObjV (jset s k v) = true := by
  cases s <;> simp_all [isObjV, jset]

theorem isObjV_copyAnnot {s : JVal} (a : String) (p : JVal) (h : isObjV s = true) :
    isObjV (copyAnnot a s p) = true := by
  unfold copyAnnot
  rcases jget p a with _ | v
  · exact h
  · simp only []
    split
    · exact isObjV_jset h a v
    · exact h

theorem isObjV_copyAnnotList {s : JVal} (p : JVal) (h : isObjV s = true) :
    isObjV (copyAnnotList s p) = true := by
  unfold copyAnnotList
  exact isObjV_copyAnnot _ p (isObjV_copyAnnot _ p (isObjV_copyAnnot _ p h))

theorem isObjV_mergePropsStep {s : JVal} (b : JVal) (ow : Bool) (h : isObjV s = true) :
    isObjV (mergePropsStep s b ow) = true := by
  unfold mergePropsStep
  rcases jget b "properties" with _ | bp
  · exact h
  · simp only []
    split
    · rcases jget s "properties" with _ | sp
      · exact h
      · simp only []
        split
        · exact isObjV_jset h _ _
        · exact h
    · exact h

theorem isObjV_concatStep {s : JVal} (k : String) (b : JVal) (h : isObjV s = true) :
    isObjV (concatStep k s b) = true := by
  unfold concatStep
  split
  · exact isObjV_jset h _ _
  · exact h

theorem jget_copyAnnot_ne {a k : String} (hne : a ≠ k) (s p : JVal) :
    jget (copyAnnot a s p) k = jget s k := by
  unfold copyAnnot
  rcases jget p a with _ | v
  · rfl
  · simp only []
    split
    · exact jget_jset_ne hne s v
    · rfl

theorem jget_copyAnnotList_ne {k : String} (h1 : k ≠ "$anchor") (h2 : k ≠ "title")
    (h3 : k ≠ "description") (s p : JVal) :
    jget (copyAnnotList s p) k = jget s k := by
  unfold copyAnnotList
  rw [jget_copyAnnot_ne (Ne.symm h3), jget_copyAnnot_ne (Ne.symm h2),
      jget_copyAnnot_ne (Ne.symm h1)]

theorem jget_mergePropsStep_ne {k : String} (hne : k ≠ "properties") (s b : JVal) (ow : Bool) :
    jget (mergePropsStep s b ow) k = jget s k := by
  unfold mergePropsStep
  rcases jget b "properties" with _ | bp
  · rfl
  · simp only []
    split
    · rcases jget s "properties" with _ | sp
      · rfl
      · simp only []
        split
        · exact jget_jset_ne (Ne.symm hne) s _
        · rfl
    · rfl

theorem jget_concatStep_ne {k' k : String} (hne : k' ≠ k) (s b : JVal) :
    jget (concatStep k' s b) k = jget s k := by
  unfold concatStep
  split
  · exact jget_jset_ne hne s _
  · rfl

theorem jget_requiredStep_ne {k : String} (hne : k ≠ "required") (s b : JVal) :
    jget (requiredStep s b) k = jget s k := by
  unfold requiredStep
  split
  · exact jget_jset_ne (Ne.symm hne) s _
  · rfl

theorem jget_jset_self_of_isObj {s : JVal} (h : isObjV s = true) (k : String) (v : JVal) :
    jget (jset s k v) k = some v := by
  cases s <;> simp_all [isObjV]
  exact jget_jset_self

theorem jget_concatStep_self {s b : JVal} (k : String) (hobj : isObjV s = true)
    (hlen : jLengthTruthy (jget b k) = true) :
    jget (concatStep k s b) k =
      some (JVal.arr (asConcatReceiver (jget s k) ++ concatArg (jget b k))) := by
  unfold concatStep
  rw [if_pos hlen, jget_jset_self_of_isObj hobj]
  have : (jget b k).map cloneDeep = jget b k := by
    rcases jget b k with _ | v <;> simp [cloneDeep]
  rw [this]

theorem jget_requiredStep_self {s b : JVal} (hobj : isObjV s = true)
    (hreq : jTruthy (jget b "required") = true) :
    jget (requiredStep s b) "required" =
      some (JVal.arr (jUniq (spreadList (jget s "required") ++ spreadList (jget b "required")))) := by
  unfold requiredStep
  rw [if_pos hreq, jget_jset_self_of_isObj hobj]

theorem flookup_filter_keys_false {α : Type} (k : String) (P : String → Bool)
    (hP : P k = false) :
    ∀ l : List (String × α), flookup k (l.filter (fun p => P p.1)) = none := by
  intro l
  induction l with
  | nil => simp [flookup]
  | cons hd tl ih =>
      obtain ⟨k', v'⟩ := hd
      by_cases hpk : P k' = true
      · have hne : k' ≠ k := by
          intro he
          rw [he, hP] at hpk
          exact Bool.false_ne_true hpk
        simp [List.filter_cons, hpk, flookup, hne, ih]
      · simp [List.filter_cons, hpk, ih]

deriving instance DecidableEq for Except

/-- Claim C7: for every target schema and every fragment (a schema
document, i.e. an object) lacking both a `$merge.with` and a
`$patch.with` body, `applyPatch` under strict mode emits a warning and
returns the target completely unchanged; it does not throw (the model is
total and takes the warn branch, not the TypeError branch). -/
theorem c7_applyPatch_strict_malformed_warns_and_keeps_target
    (source patch : JVal) (opts : PatchOptions) (pf : List (String × JVal))
    (hstrict : opts.strict = true)
    (hpatch : patch = JVal.obj pf)
    (hp : jget2 patch "$patch" "with" = none)
    (hm : jget2 patch "$merge" "with" = none) :
    applyPatch source patch opts = (source, PatchLog.warned) := by
  subst hpatch
  unfold applyPatch patchBody
  rw [hp, hm, hstrict]
  simp [jTruthy]

theorem c7_witness :
    ({} : PatchOptions).strict = true ∧
    jget2 (JVal.obj [("title", JVal.str "t")]) "$patch" "with" = none ∧
    jget2 (JVal.obj [("title", JVal.str "t")]) "$merge" "with" = none ∧
    applyPatch (JVal.obj [("a", JVal.num 1)]) (JVal.obj [("title", JVal.str "t")]) {} =
      (JVal.obj [("a", JVal.num 1)], PatchLog.warned) :=
  ⟨rfl, by decide, by decide,
    c7_applyPatch_strict_malformed_warns_and_keeps_target
      (JVal.obj [("a", JVal.num 1)]) (JVal.obj [("title", JVal.str "t")]) {}
      [("title", JVal.str "t")] rfl rfl (by decide) (by decide)⟩

/-- Claim C6, counterexample to the claim as stated: deregistering a
schema does NOT remove it from other entities' extension lists — after
`deregisterSchema "a"` on a registry where schema `"b"` lists `"a"` as
an extension, `"a"` is still in `"b"`'s extension list (while the
`schemaPaths` entry is gone). -/
theorem c6_counterexample :
    (deregisterSchema ⟨[("a", "/a.json")], [("b", ["a"])], false, []⟩ "a").schemaExtensions
        = [("b", ["a"])] ∧
    "a" ∈ ((flookup "b"
        (deregisterSchema ⟨[("a", "/a.json")], [("b", ["a"])], false, []⟩ "a").schemaExtensions).getD []) ∧
    flookup "a"
        (deregisterSchema ⟨[("a", "/a.json")], [("b", ["a"])], false, []⟩ "a").schemaPaths = none := by
  decide

/-- Claim C6, amended: `deregisterSchema(name)` removes the entity from
the registry (lookups of `name` then fail, other names are unaffected),
never errors when the name is not registered, and calling it twice has
the same effect as calling it once — but it leaves every entity's
extension list exactly as it was. -/
theorem c6_deregister_amended (st : RegState) (name : String) :
    flookup name (deregisterSchema st name).schemaPaths = none ∧
    (∀ k, k ≠ name → flookup k (deregisterSchema st name).schemaPaths = flookup k st.schemaPaths) ∧
    deregisterSchema (deregisterSchema st name) name = deregisterSchema st name ∧
    (deregisterSchema st name).schemaExtensions = st.schemaExtensions := by
  refine ⟨?_, ?_, ?_, rfl⟩
  · show flookup name (st.schemaPaths.filter (fun p => p.1 ≠ name)) = none
    exact flookup_filter_keys_false name (fun x => decide (x ≠ name)) (by simp) st.schemaPaths
  · intro k hk
    show flookup k (st.schemaPaths.filter (fun p => p.1 ≠ name)) = flookup k st.schemaPaths
    exact flookup_filter_keys k (fun x => decide (x ≠ name)) (by simp [hk]) st.schemaPaths
  · unfold deregisterSchema
    simp [List.filter_filter]

/-- Claim C5 (code bug): registering a file whose `$anchor` names an
already-registered schema without `options.replace` does fail, but with
a ReferenceError — the `SCHEMA_EXISTS` throw evaluates the undefined
identifier `filepath` (the variable in scope is `filePath`) — rather
than with SchemaExists; with `options.replace` set the previous entity
is deregistered first and the new path is then the only one observable
by lookup. -/
theorem c5_register_duplicate_behaviour :
    registerSchema
        [("/a1.json", JVal.obj [("$anchor", JVal.str "a")]),
         ("/a2.json", JVal.obj [("$anchor", JVal.str "a")])]
        (fun _ => []) ⟨[("a", "/a1.json")], [], false, []⟩ "/a2.json" false =
      (⟨[("a", "/a1.json")], [], false, []⟩, Except.error RegErr.referenceError) ∧
    registerSchema
        [("/a1.json", JVal.obj [("$anchor", JVal.str "a")]),
         ("/a2.json", JVal.obj [("$anchor", JVal.str "a")])]
        (fun _ => []) ⟨[("a", "/a1.json")], [], false, []⟩ "/a2.json" true =
      (⟨[("a", "/a2.json")], [], false, []⟩, Except.ok ("a", "/a2.json")) := by
  decide

/-- Claim C1 (code bug): with `ignoreRequired: true`, the error filter
`e => !opts.ignoreRequired || e.message.includes('required')` keeps
exactly the missing-required-field errors and drops all others — the
inverse of the claim — so `validate` throws carrying only the
required-field error text; with `ignoreRequired: false` both errors are
reported. -/
theorem c1_ignoreRequired_filter_inverted :
    validate ⟨fun v => (v, false,
        [⟨"", "must have required property title"⟩, ⟨"/x", "must be string"⟩])⟩
      (JVal.obj [("$anchor", JVal.str "test")]) (JVal.obj [])
      { useDefaults := false, ignoreRequired := true } =
      ValidateResult.failed (some (JVal.str "test"))
        "must have required property title, " (JVal.obj []) ∧
    validate ⟨fun v => (v, false,
        [⟨"", "must have required property title"⟩, ⟨"/x", "must be string"⟩])⟩
      (JVal.obj [("$anchor", JVal.str "test")]) (JVal.obj [])
      { useDefaults := false, ignoreRequired := false } =
      ValidateResult.failed (some (JVal.str "test"))
        "must have required property title, /x must be string, " (JVal.obj []) := by
  decide

/-- Claim C9: every registered string format whose pattern the external
safety analysis flags as catastrophic-backtracking-prone is replaced at
format initialisation by the permissive catch-all pattern (which matches
any string), and the warning is logged; the check is total — it never
throws for an unsafe format. -/
theorem c9_unsafe_format_replaced (safeRegex : RegexFmt → Bool)
    (fmts : List (String × RegexFmt)) (name : String) (re : RegexFmt)
    (hfound : flookup name fmts = some re) (hnotsafe : safeRegex re = false) :
    flookup name (checkFormats safeRegex fmts).1 = some defaultRegExp ∧
    (∀ s, ((flookup name (checkFormats safeRegex fmts).1).getD defaultRegExp).accepts s = true) ∧
    ("unsafe RegExp for format " ++ name ++ ", using default") ∈ (checkFormats safeRegex fmts).2 := by
  induction fmts with
  | nil => simp [flookup] at hfound
  | cons hd tl ih =>
      obtain ⟨k', re'⟩ := hd
      by_cases hk : k' = name
      · subst hk
        simp [flookup] at hfound
        subst hfound
        simp [checkFormats, hnotsafe, flookup, defaultRegExp]
      · simp only [flookup, if_neg hk] at hfound
        obtain ⟨h1, _, h3⟩ := ih hfound
        refine ⟨?_, ?_, ?_⟩
        · simp only [checkFormats]
          split <;> simp [flookup, hk, h1]
        · intro s
          simp only [checkFormats]
          split <;> simp [flookup, hk, h1, defaultRegExp]
        · simp only [checkFormats]
          split <;> simp [h3]

theorem c9_witness :
    flookup "email" (checkFormats (fun _ => false) [("email", ⟨fun s => s = "x"⟩)]).1 =
      some defaultRegExp ∧
    (∀ s, ((flookup "email"
        (checkFormats (fun _ => false) [("email", ⟨fun s => s = "x"⟩)]).1).getD
          defaultRegExp).accepts s = true) ∧
    ("unsafe RegExp for format email, using default") ∈
      (checkFormats (fun _ => false) [("email", ⟨fun s => s = "x"⟩)]).2 :=
  c9_unsafe_format_replaced (fun _ => false) [("email", ⟨fun s => s = "x"⟩)]
    "email" ⟨fun s => s = "x"⟩ rfl rfl

/-- Claim C10: `validate` never mutates the caller-supplied data cell:
the defaults merge and the validator's in-place keyword coercions are
applied to a freshly allocated deep clone, and the reference `validate`
returns (or attaches to the VALIDATION_FAILED error) is that clone, not
the caller's cell. -/
theorem c10_validate_never_mutates_caller (engine : AjvEngine) (schema : JVal)
    (opts : ValidateOptions) (h : JHeap) (r : Nat) (hr : r < h.length) :
    heapRead (validateAt engine schema opts h r).1 r = heapRead h r ∧
    (validateAt engine schema opts h r).2.1 ≠ r ∧
    (∀ d, (validateAt engine schema opts h r).2.2 = ValidateResult.ok d →
        d = heapRead (validateAt engine schema opts h r).1 (validateAt engine schema opts h r).2.1) ∧
    (∀ n e d, (validateAt engine schema opts h r).2.2 = ValidateResult.failed n e d →
        d = heapRead (validateAt engine schema opts h r).1 (validateAt engine schema opts h r).2.1) := by
  have hlen : h.length ≠ r := (Nat.ne_of_lt hr).symm
  unfold validateAt heapAlloc heapWrite heapRead
  rcases hrun : engine.run (((h ++ [cloneDeep (h.getD r JVal.undef)]).set h.length
      (ddVal ((h ++ [cloneDeep (h.getD r JVal.undef)]).getD h.length JVal.undef)
        (if opts.useDefaults = true then getObjectDefaults schema else JVal.obj []))).getD
          h.length JVal.undef) with ⟨coerced, ok, errs⟩
  simp only [hrun]
  refine ⟨?_, hlen, ?_, ?_⟩
  · simp [List.getD, List.getElem?_set_ne hlen, List.getElem?_append_left hr]
  · intro d hd
    split at hd
    · exact (ValidateResult.ok.inj hd).symm
    · split at hd
      · cases hd
      · exact (ValidateResult.ok.inj hd).symm
  · intro n e d hd
    split at hd
    · cases hd
    · split at hd
      · exact (ValidateResult.failed.inj hd).2.2.symm
      · cases hd

theorem c10_witness :
    0 < [JVal.num 1].length ∧
    (heapRead (validateAt idEngine (JVal.obj []) {} [JVal.num 1] 0).1 0 =
        heapRead [JVal.num 1] 0 ∧
      (validateAt idEngine (JVal.obj []) {} [JVal.num 1] 0).2.1 ≠ 0 ∧
      (∀ d, (validateAt idEngine (JVal.obj []) {} [JVal.num 1] 0).2.2 = ValidateResult.ok d →
          d = heapRead (validateAt idEngine (JVal.obj []) {} [JVal.num 1] 0).1
                (validateAt idEngine (JVal.obj []) {} [JVal.num 1] 0).2.1) ∧
      (∀ n e d, (validateAt idEngine (JVal.obj []) {} [JVal.num 1] 0).2.2 =
            ValidateResult.failed n e d →
          d = heapRead (validateAt idEngine (JVal.obj []) {} [JVal.num 1] 0).1
                (validateAt idEngine (JVal.obj []) {} [JVal.num 1] 0).2.1)) :=
  ⟨by decide, c10_validate_never_mutates_caller idEngine (JVal.obj []) {} [JVal.num 1] 0
    (by decide)⟩

/-- Claim C4, counterexample to the claim as stated: `required` is only
deduplicated when the fragment's patch body itself carries a `required`
array — a fragment without one leaves a target whose `required` already
holds a name twice untouched, so after that application the target's
`required` does not contain each name exactly once. -/
theorem c4_counterexample :
    jget (applyPatch
        (JVal.obj [("$anchor", JVal.str "t"), ("required", JVal.arr [JVal.str "a", JVal.str "a"])])
        (JVal.obj [("$anchor", JVal.str "p"),
          ("$patch", JVal.obj [("with", JVal.obj [("properties", JVal.obj [("c", JVal.obj [])])])])])
        {}).1 "required" = some (JVal.arr [JVal.str "a", JVal.str "a"]) ∧
    [JVal.str "a", JVal.str "a"].count (JVal.str "a") ≠ 1 := by
  decide

theorem jget_concatAll_self {s b : JVal} (k : String)
    (hk : k = "allOf" ∨ k = "anyOf" ∨ k = "oneOf")
    (hobj : isObjV s = true) (hlen : jLengthTruthy (jget b k) = true) :
    jget (concatAll s b) k =
      some (JVal.arr (asConcatReceiver (jget s k) ++ concatArg (jget b k))) := by
  unfold concatAll
  rcases hk with rfl | rfl | rfl
  · rw [jget_concatStep_ne (by decide), jget_concatStep_ne (by decide),
      jget_concatStep_self _ hobj hlen]
  · rw [jget_concatStep_ne (by decide),
      jget_concatStep_self _ (isObjV_concatStep _ b hobj) hlen,
      jget_concatStep_ne (by decide)]
  · rw [jget_concatStep_self _ (isObjV_concatStep _ b (isObjV_concatStep _ b hobj)) hlen,
      jget_concatStep_ne (by decide), jget_concatStep_ne (by decide)]

theorem jget_concatAll_ne {k : String} (h1 : k ≠ "allOf") (h2 : k ≠ "anyOf")
    (h3 : k ≠ "oneOf") (s b : JVal) : jget (concatAll s b) k = jget s k := by
  unfold concatAll
  rw [jget_concatStep_ne (Ne.symm h3), jget_concatStep_ne (Ne.symm h2),
    jget_concatStep_ne (Ne.symm h1)]

theorem isObjV_concatAll {s : JVal} (b : JVal) (h : isObjV s = true) :
    isObjV (concatAll s b) = true := by
  unfold concatAll
  exact isObjV_concatStep _ b (isObjV_concatStep _ b (isObjV_concatStep _ b h))

/-- Claim C4, amended: after `applyPatch(target, fragment)` on an object
target whose fragment has a usable patch body, (a) each of `allOf`,
`anyOf`, `oneOf` present and non-empty on the body is concatenated onto
the target's existing array (created if absent, never replaced), and (b)
when the body carries a truthy `required`, the target's `required`
becomes a duplicate-free array with exactly the names of the union of
the previous entries and the body's entries; when it does not, the
target's `required` is left exactly as it was (so pre-existing
duplicates are not cleaned). -/
theorem c4_applyPatch_concat_and_required (source patch : JVal) (opts : PatchOptions)
    (body : JVal) (sf : List (String × JVal))
    (hsrc : source = JVal.obj sf)
    (hbody : patchBody opts.strict patch = some body) :
    (∀ k, (k = "allOf" ∨ k = "anyOf" ∨ k = "oneOf") →
      ∀ l, jget body k = some (JVal.arr l) → l ≠ [] →
        ((jget source k = none →
            jget (applyPatch source patch opts).1 k = some (JVal.arr l)) ∧
         (∀ m, jget source k = some (JVal.arr m) →
            jget (applyPatch source patch opts).1 k = some (JVal.arr (m ++ l))))) ∧
    (jTruthy (jget body "required") = true →
      ∃ r, jget (applyPatch source patch opts).1 "required" = some (JVal.arr r) ∧
        r.Nodup ∧
        (∀ x, x ∈ r ↔ (x ∈ spreadList (jget source "required") ∨
                       x ∈ spreadList (jget body "required")))) ∧
    (jTruthy (jget body "required") = false →
      jget (applyPatch source patch opts).1 "required" = jget source "required") := by
  have happ : (applyPatch source patch opts).1 =
      requiredStep (concatAll (mergePropsStep
        (if opts.extendAnnotations then copyAnnotList source patch else source)
        body opts.overwriteProperties) body) body := by
    unfold applyPatch
    rw [hbody]
  have hobj1 : isObjV (if opts.extendAnnotations then copyAnnotList source patch else source)
      = true := by
    subst hsrc
    split
    · exact isObjV_copyAnnotList patch rfl
    · rfl
  set s2 := mergePropsStep
    (if opts.extendAnnotations then copyAnnotList source patch else source)
    body opts.overwriteProperties with hs2
  have hobj2 : isObjV s2 = true := isObjV_mergePropsStep _ _ hobj1
  have hframe : ∀ k : String, k ≠ "$anchor" → k ≠ "title" → k ≠ "description" →
      k ≠ "properties" → jget s2 k = jget source k := by
    intro k h1 h2 h3 h4
    rw [hs2, jget_mergePropsStep_ne h4]
    split
    · exact jget_copyAnnotList_ne h1 h2 h3 source patch
    · rfl
  refine ⟨?_, ?_, ?_⟩
  · intro k hk l hl hne
    have hframe2 : jget s2 k = jget source k := by
      rcases hk with rfl | rfl | rfl <;>
        exact hframe _ (by decide) (by decide) (by decide) (by decide)
    have hlen : jLengthTruthy (jget body k) = true := by
      rw [hl]
      simp [jLengthTruthy, hne]
    have hreqne : jget (requiredStep (concatAll s2 body) body) k = jget (concatAll s2 body) k := by
      rcases hk with rfl | rfl | rfl <;> exact jget_requiredStep_ne (by decide) _ body
    constructor
    · intro hnone
      rw [happ, hreqne, jget_concatAll_self k hk hobj2 hlen, hframe2, hnone, hl]
      simp [asConcatReceiver, concatArg]
    · intro m hm
      rw [happ, hreqne, jget_concatAll_self k hk hobj2 hlen, hframe2, hm, hl]
      simp [asConcatReceiver, concatArg]
  · intro hreq
    have hcframe : jget (concatAll s2 body) "required" = jget source "required" := by
      rw [jget_concatAll_ne (by decide) (by decide) (by decide)]
      exact hframe _ (by decide) (by decide) (by decide) (by decide)
    rw [happ, jget_requiredStep_self (isObjV_concatAll body hobj2) hreq, hcframe]
    refine ⟨_, rfl, jUniq_nodup _, ?_⟩
    intro x
    rw [mem_jUniq, List.mem_append]
  · intro hreq
    have hcframe : jget (concatAll s2 body) "required" = jget source "required" := by
      rw [jget_concatAll_ne (by decide) (by decide) (by decide)]
      exact hframe _ (by decide) (by decide) (by decide) (by decide)
    rw [happ]
    unfold requiredStep
    rw [if_neg (by simp [hreq]), hcframe]

theorem c4_witness :
    (∀ k, (k = "allOf" ∨ k = "anyOf" ∨ k = "oneOf") →
      ∀ l, jget (JVal.obj [("properties", JVal.obj [("c", JVal.obj [])]),
            ("required", JVal.arr [JVal.str "b", JVal.str "c"]),
            ("allOf", JVal.arr [JVal.obj [("x", JVal.num 1)]])]) k = some (JVal.arr l) → l ≠ [] →
        ((jget (JVal.obj [("$anchor", JVal.str "t"), ("properties", JVal.obj [("a", JVal.obj [])]),
              ("required", JVal.arr [JVal.str "a", JVal.str "b"])]) k = none →
            jget (applyPatch
              (JVal.obj [("$anchor", JVal.str "t"), ("properties", JVal.obj [("a", JVal.obj [])]),
                ("required", JVal.arr [JVal.str "a", JVal.str "b"])])
              (JVal.obj [("$anchor", JVal.str "p"), ("$patch", JVal.obj [("with",
                JVal.obj [("properties", JVal.obj [("c", JVal.obj [])]),
                  ("required", JVal.arr [JVal.str "b", JVal.str "c"]),
                  ("allOf", JVal.arr [JVal.obj [("x", JVal.num 1)]])])])]) {}).1 k =
              some (JVal.arr l)) ∧
         (∀ m, jget (JVal.obj [("$anchor", JVal.str "t"), ("properties", JVal.obj [("a", JVal.obj [])]),
              ("required", JVal.arr [JVal.str "a", JVal.str "b"])]) k = some (JVal.arr m) →
            jget (applyPatch
              (JVal.obj [("$anchor", JVal.str "t"), ("properties", JVal.obj [("a", JVal.obj [])]),
                ("required", JVal.arr [JVal.str "a", JVal.str "b"])])
              (JVal.obj [("$anchor", JVal.str "p"), ("$patch", JVal.obj [("with",
                JVal.obj [("properties", JVal.obj [("c", JVal.obj [])]),
                  ("required", JVal.arr [JVal.str "b", JVal.str "c"]),
                  ("allOf", JVal.arr [JVal.obj [("x", JVal.num 1)]])])])]) {}).1 k =
              some (JVal.arr (m ++ l))))) ∧
    (jTruthy (jget (JVal.obj [("properties", JVal.obj [("c", JVal.obj [])]),
          ("required", JVal.arr [JVal.str "b", JVal.str "c"]),
          ("allOf", JVal.arr [JVal.obj [("x", JVal.num 1)]])]) "required") = true →
      ∃ r, jget (applyPatch
          (JVal.obj [("$anchor", JVal.str "t"), ("properties", JVal.obj [("a", JVal.obj [])]),
            ("required", JVal.arr [JVal.str "a", JVal.str "b"])])
          (JVal.obj [("$anchor", JVal.str "p"), ("$patch", JVal.obj [("with",
            JVal.obj [("properties", JVal.obj [("c", JVal.obj [])]),
              ("required", JVal.arr [JVal.str "b", JVal.str "c"]),
              ("allOf", JVal.arr [JVal.obj [("x", JVal.num 1)]])])])]) {}).1 "required" =
          some (JVal.arr r) ∧
        r.Nodup ∧
        (∀ x, x ∈ r ↔ (x ∈ spreadList (jget (JVal.obj [("$anchor", JVal.str "t"),
              ("properties", JVal.obj [("a", JVal.obj [])]),
              ("required", JVal.arr [JVal.str "a", JVal.str "b"])]) "required") ∨
            x ∈ spreadList (jget (JVal.obj [("properties", JVal.obj [("c", JVal.obj [])]),
              ("required", JVal.arr [JVal.str "b", JVal.str "c"]),
              ("allOf", JVal.arr [JVal.obj [("x", JVal.num 1)]])]) "required")))) ∧
    (jTruthy (jget (JVal.obj [("properties", JVal.obj [("c", JVal.obj [])]),
          ("required", JVal.arr [JVal.str "b", JVal.str "c"]),
          ("allOf", JVal.arr [JVal.obj [("x", JVal.num 1)]])]) "required") = false →
      jget (applyPatch
          (JVal.obj [("$anchor", JVal.str "t"), ("properties", JVal.obj [("a", JVal.obj [])]),
            ("required", JVal.arr [JVal.str "a", JVal.str "b"])])
          (JVal.obj [("$anchor", JVal.str "p"), ("$patch", JVal.obj [("with",
            JVal.obj [("properties", JVal.obj [("c", JVal.obj [])]),
              ("required", JVal.arr [JVal.str "b", JVal.str "c"]),
              ("allOf", JVal.arr [JVal.obj [("x", JVal.num 1)]])])])]) {}).1 "required" =
        jget (JVal.obj [("$anchor", JVal.str "t"), ("properties", JVal.obj [("a", JVal.obj [])]),
          ("required", JVal.arr [JVal.str "a", JVal.str "b"])]) "required") :=
  c4_applyPatch_concat_and_required
    (JVal.obj [("$anchor", JVal.str "t"), ("properties", JVal.obj [("a", JVal.obj [])]),
      ("required", JVal.arr [JVal.str "a", JVal.str "b"])])
    (JVal.obj [("$anchor", JVal.str "p"), ("$patch", JVal.obj [("with",
      JVal.obj [("properties", JVal.obj [("c", JVal.obj [])]),
        ("required", JVal.arr [JVal.str "b", JVal.str "c"]),
        ("allOf", JVal.arr [JVal.obj [("x", JVal.num 1)]])])])]) {}
    (JVal.obj [("properties", JVal.obj [("c", JVal.obj [])]),
      ("required", JVal.arr [JVal.str "b", JVal.str "c"]),
      ("allOf", JVal.arr [JVal.obj [("x", JVal.num 1)]])])
    [("$anchor", JVal.str "t"), ("properties", JVal.obj [("a", JVal.obj [])]),
      ("required", JVal.arr [JVal.str "a", JVal.str "b"])]
    rfl (by decide)

/-- Claim C3, counterexample to the claim as stated: when the caller's
value and the schema default are both arrays, `_.defaultsDeep` merges
them index-wise instead of keeping the caller's value — data
`{tags:[1]}` against a schema default `tags:[2,3]` validates to
`{tags:[1,3]}`, so the key present in the caller's data does not keep
the caller's value. -/
theorem c3_counterexample :
    validate idEngine
      (JVal.obj [("properties", JVal.obj [("tags",
        JVal.obj [("default", JVal.arr [JVal.num 2, JVal.num 3])])])])
      (JVal.obj [("tags", JVal.arr [JVal.num 1])]) {} =
      ValidateResult.ok (JVal.obj [("tags", JVal.arr [JVal.num 1, JVal.num 3])]) ∧
    JVal.arr [JVal.num 1, JVal.num 3] ≠ JVal.arr [JVal.num 1] := by
  constructor
  · simp [validate, getObjectDefaults, schemaProps, orNullish, jget2, jget, flookup, godProps,
      godFields, jTruthyV, jTruthy, ddVal, ddFields, ddList, cloneDeep, idEngine]
  · decide

/-- Claim C3, amended: `validate` with `useDefaults: true` (the default)
deep-fills schema defaults under a clone of the caller's data: a key
absent from the caller's data whose property config declares a default
appears in the result with that default; a key present with a
non-container, non-undefined value keeps the caller's value; but a key
present with an array value whose default is also an array is merged
index-wise (caller entries win position by position, longer default
tails are appended) rather than kept. -/
theorem c3_validate_defaults_amended (schema : JVal) (df fields : List (String × JVal))
    (hprops : schemaProps schema = some (JVal.obj fields)) :
    ∃ rv, validate idEngine schema (JVal.obj df) {} = ValidateResult.ok rv ∧
      (∀ k v, flookup k df = some v → isRefType v = false → v ≠ JVal.undef →
          jget rv k = some v) ∧
      (∀ k cfg d, flookup k df = none → flookup k fields = some cfg →
          jTruthy (jget cfg "properties") = false → jget cfg "default" = some d →
          jget rv k = some d) ∧
      (∀ k cfg dl sl, flookup k df = some (JVal.arr dl) → flookup k fields = some cfg →
          jTruthy (jget cfg "properties") = false → jget cfg "default" = some (JVal.arr sl) →
          jget rv k = some (JVal.arr (ddList dl sl))) := by
  have hgod : getObjectDefaults schema = JVal.obj (godFields fields) := by
    unfold getObjectDefaults
    rw [hprops]
    simp [godProps]
  have hval : validate idEngine schema (JVal.obj df) {} =
      ValidateResult.ok (ddVal (JVal.obj df) (getObjectDefaults schema)) := rfl
  refine ⟨ddVal (JVal.obj df) (getObjectDefaults schema), hval, ?_, ?_, ?_⟩
  · intro k v hk hscal hund
    rw [hgod, ddVal_obj_lookup, hk]
    rcases hs : flookup k (godFields fields) with _ | sv <;>
      simp [hs, ddVal_scalar hscal hund]
  · intro k cfg d hk hcfg hprop hd
    rw [hgod, ddVal_obj_lookup, hk, flookup_godFields, hcfg]
    rcases hp : jget cfg "properties" with _ | p
    · simp [hp, hd]
    · rw [hp] at hprop
      simp only [jTruthy] at hprop
      simp [hp, hprop, hd]
  · intro k cfg dl sl hk hcfg hprop hd
    rw [hgod, ddVal_obj_lookup, hk, flookup_godFields, hcfg]
    rcases hp : jget cfg "properties" with _ | p
    · simp [hp, hd, ddVal]
    · rw [hp] at hprop
      simp only [jTruthy] at hprop
      simp [hp, hprop, hd, ddVal]

theorem c3_witness :
    schemaProps (JVal.obj [("properties", JVal.obj [
        ("title", JVal.obj [("default", JVal.str "d")]),
        ("body", JVal.obj [("default", JVal.str "")])])]) =
      some (JVal.obj [("title", JVal.obj [("default", JVal.str "d")]),
        ("body", JVal.obj [("default", JVal.str "")])]) ∧
    (∃ rv, validate idEngine
        (JVal.obj [("properties", JVal.obj [
          ("title", JVal.obj [("default", JVal.str "d")]),
          ("body", JVal.obj [("default", JVal.str "")])])])
        (JVal.obj [("title", JVal.str "x")]) {} = ValidateResult.ok rv ∧
      (∀ k v, flookup k [("title", JVal.str "x")] = some v → isRefType v = false →
          v ≠ JVal.undef → jget rv k = some v) ∧
      (∀ k cfg d, flookup k [("title", JVal.str "x")] = none →
          flookup k [("title", JVal.obj [("default", JVal.str "d")]),
            ("body", JVal.obj [("default", JVal.str "")])] = some cfg →
          jTruthy (jget cfg "properties") = false → jget cfg "default" = some d →
          jget rv k = some d) ∧
      (∀ k cfg dl sl, flookup k [("title", JVal.str "x")] = some (JVal.arr dl) →
          flookup k [("title", JVal.obj [("default", JVal.str "d")]),
            ("body", JVal.obj [("default", JVal.str "")])] = some cfg →
          jTruthy (jget cfg "properties") = false → jget cfg "default" = some (JVal.arr sl) →
          jget rv k = some (JVal.arr (ddList dl sl)))) :=
  ⟨by decide,
    c3_validate_defaults_amended
      (JVal.obj [("properties", JVal.obj [
        ("title", JVal.obj [("default", JVal.str "d")]),
        ("body", JVal.obj [("default", JVal.str "")])])])
      [("title", JVal.str "x")]
      [("title", JVal.obj [("default", JVal.str "d")]),
        ("body", JVal.obj [("default", JVal.str "")])]
      (by decide)⟩

theorem sanitiseEntries_protected_throws (xssF : String → String) (opts : SanitiseOptions)
    (data : JVal) (props : List (String × JVal)) (prop : String) (cfg v : JVal)
    (hstrict : opts.strict = true) (hmem : (prop, cfg) ∈ props)
    (hdata : jget data prop = some v)
    (homit : ((opts.isInternal && jTruthy (jget cfg "isInternal")) ||
              (opts.isReadOnly && jTruthy (jget cfg "isReadOnly"))) = true) :
    ∃ a, (sanitiseEntries xssF opts data props).2 = some a := by
  induction props with
  | nil => simp at hmem
  | cons hd tl ih =>
      obtain ⟨p0, c0⟩ := hd
      rcases List.mem_cons.mp hmem with heq | hmemtl
      · rw [Prod.mk.injEq] at heq
        obtain ⟨rfl, rfl⟩ := heq
        refine ⟨prop, ?_⟩
        simp [sanitiseEntries, hdata, homit, hstrict]
      · rcases hd0 : jget data p0 with _ | v0
        · obtain ⟨a, ha⟩ := ih hmemtl
          refine ⟨a, ?_⟩
          simp [sanitiseEntries, hd0, ha]
        · by_cases ho : ((opts.isInternal && jTruthy (jget c0 "isInternal")) ||
              (opts.isReadOnly && jTruthy (jget c0 "isReadOnly"))) = true
          · refine ⟨p0, ?_⟩
            simp [sanitiseEntries, hd0, ho, hstrict]
          · obtain ⟨a, ha⟩ := ih hmemtl
            refine ⟨a, ?_⟩
            simp only [sanitiseEntries, hd0]
            simp only [ho, if_false, Bool.false_eq_true]
            rcases hrec : sanitiseEntries xssF opts data tl with ⟨restOut, thrown⟩
            rw [hrec] at ha
            simp at ha
            simp [hrec, ha]

theorem sanitiseEntries_nonstrict_no_throw (xssF : String → String) (opts : SanitiseOptions)
    (data : JVal) (hstrict : opts.strict = false) :
    ∀ props : List (String × JVal), (sanitiseEntries xssF opts data props).2 = none
  | [] => by simp [sanitiseEntries]
  | (p0, c0) :: tl => by
      have ih := sanitiseEntries_nonstrict_no_throw xssF opts data hstrict tl
      rcases hd0 : jget data p0 with _ | v0
      · simp [sanitiseEntries, hd0, ih]
      · by_cases ho : ((opts.isInternal && jTruthy (jget c0 "isInternal")) ||
            (opts.isReadOnly && jTruthy (jget c0 "isReadOnly"))) = true
        · simp [sanitiseEntries, hd0, ho, hstrict, ih]
        · simp only [sanitiseEntries, hd0]
          simp only [ho, if_false, Bool.false_eq_true]
          rcases hrec : sanitiseEntries xssF opts data tl with ⟨restOut, thrown⟩
          rw [hrec] at ih
          simp at ih
          simp [hrec, ih]

theorem sanitiseEntries_key_sub (xssF : String → String) (opts : SanitiseOptions)
    (data : JVal) :
    ∀ (props : List (String × JVal)) (k : String) (x : JVal),
      flookup k (sanitiseEntries xssF opts data props).1 = some x → ∃ c, (k, c) ∈ props
  | [], k, x, h => by simp [sanitiseEntries, flookup] at h
  | (p0, c0) :: tl, k, x, h => by
      rcases hd0 : jget data p0 with _ | v0
      · rw [show (sanitiseEntries xssF opts data ((p0, c0) :: tl)) =
            sanitiseEntries xssF opts data tl by simp [sanitiseEntries, hd0]] at h
        obtain ⟨c, hc⟩ := sanitiseEntries_key_sub xssF opts data tl k x h
        exact ⟨c, List.mem_cons_of_mem _ hc⟩
      · by_cases ho : ((opts.isInternal && jTruthy (jget c0 "isInternal")) ||
            (opts.isReadOnly && jTruthy (jget c0 "isReadOnly"))) = true
        · by_cases hs : opts.strict = true
          · rw [show (sanitiseEntries xssF opts data ((p0, c0) :: tl)).1 = [] by
              simp [sanitiseEntries, hd0, ho, hs]] at h
            simp [flookup] at h
          · rw [show (sanitiseEntries xssF opts data ((p0, c0) :: tl)) =
                sanitiseEntries xssF opts data tl by
                simp [sanitiseEntries, hd0, ho, hs]] at h
            obtain ⟨c, hc⟩ := sanitiseEntries_key_sub xssF opts data tl k x h
            exact ⟨c, List.mem_cons_of_mem _ hc⟩
        · by_cases hk : p0 = k
          · exact ⟨c0, hk ▸ List.mem_cons_self _ _⟩
          · rcases hrec : sanitiseEntries xssF opts data tl with ⟨restOut, thrown⟩
            rw [show (sanitiseEntries xssF opts data ((p0, c0) :: tl)).1 =
                (p0, if jget c0 "type" = some (JVal.str "object") &&
                    jTruthy (jget c0 "properties") then
                  JVal.obj (sanitiseNested xssF opts c0 v0).1
                else if jget c0 "type" = some (JVal.str "string") && opts.sanitiseHtml then
                  xssApply xssF v0
                else v0) :: restOut by
              simp only [sanitiseEntries, hd0]
              simp only [ho, if_false, Bool.false_eq_true]
              simp [hrec]
              split_ifs <;> rfl] at h
            rw [flookup] at h
            rw [if_neg hk] at h
            obtain ⟨c, hc⟩ := sanitiseEntries_key_sub xssF opts data tl k x (by rw [hrec]; exact h)
            exact ⟨c, List.mem_cons_of_mem _ hc⟩

theorem sanitiseEntries_omit_absent (xssF : String → String) (opts : SanitiseOptions)
    (data : JVal) (prop : String) (cfg : JVal)
    (hstrict : opts.strict = false)
    (homit : ((opts.isInternal && jTruthy (jget cfg "isInternal")) ||
              (opts.isReadOnly && jTruthy (jget cfg "isReadOnly"))) = true) :
    ∀ props : List (String × JVal), ((props.map Prod.fst).Nodup) → (prop, cfg) ∈ props →
      flookup prop (sanitiseEntries xssF opts data props).1 = none
  | [], _, hmem => by simp at hmem
  | (p0, c0) :: tl, hnodup, hmem => by
      have hnd2 : (tl.map Prod.fst).Nodup := (List.nodup_cons.mp (by simpa using hnodup)).2
      have hp0 : p0 ∉ tl.map Prod.fst := (List.nodup_cons.mp (by simpa using hnodup)).1
      rcases List.mem_cons.mp hmem with heq | hmemtl
      · rw [Prod.mk.injEq] at heq
        obtain ⟨rfl, rfl⟩ := heq
        rcases hd0 : jget data prop with _ | v0
        · rw [show (sanitiseEntries xssF opts data ((prop, cfg) :: tl)) =
              sanitiseEntries xssF opts data tl by simp [sanitiseEntries, hd0]]
          rcases hfl : flookup prop (sanitiseEntries xssF opts data tl).1 with _ | x
          · rfl
          · obtain ⟨c, hc⟩ := sanitiseEntries_key_sub xssF opts data tl prop x hfl
            exact absurd (List.mem_map.mpr ⟨(prop, c), hc, rfl⟩) hp0
        · rw [show (sanitiseEntries xssF opts data ((prop, cfg) :: tl)) =
              sanitiseEntries xssF opts data tl by simp [sanitiseEntries, hd0, homit, hstrict]]
          rcases hfl : flookup prop (sanitiseEntries xssF opts data tl).1 with _ | x
          · rfl
          · obtain ⟨c, hc⟩ := sanitiseEntries_key_sub xssF opts data tl prop x hfl
            exact absurd (List.mem_map.mpr ⟨(prop, c), hc, rfl⟩) hp0
      · have hpne : p0 ≠ prop := by
          intro he
          subst he
          exact hp0 (List.mem_map.mpr ⟨(p0, cfg), hmemtl, rfl⟩)
        have ih := sanitiseEntries_omit_absent xssF opts data prop cfg hstrict homit tl hnd2 hmemtl
        rcases hd0 : jget data p0 with _ | v0
        · rw [show (sanitiseEntries xssF opts data ((p0, c0) :: tl)) =
              sanitiseEntries xssF opts data tl by simp [sanitiseEntries, hd0]]
          exact ih
        · by_cases ho : ((opts.isInternal && jTruthy (jget c0 "isInternal")) ||
              (opts.isReadOnly && jTruthy (jget c0 "isReadOnly"))) = true
          · rw [show (sanitiseEntries xssF opts data ((p0, c0) :: tl)) =
                sanitiseEntries xssF opts data tl by
                simp [sanitiseEntries, hd0, ho, hstrict]]
            exact ih
          · rcases hrec : sanitiseEntries xssF opts data tl with ⟨restOut, thrown⟩
            rw [show (sanitiseEntries xssF opts data ((p0, c0) :: tl)).1 =
                (p0, if jget c0 "type" = some (JVal.str "object") &&
                    jTruthy (jget c0 "properties") then
                  JVal.obj (sanitiseNested xssF opts c0 v0).1
                else if jget c0 "type" = some (JVal.str "string") && opts.sanitiseHtml then
                  xssApply xssF v0
                else v0) :: restOut by
              simp only [sanitiseEntries, hd0]
              simp only [ho, if_false, Bool.false_eq_true]
              simp [hrec]
              split_ifs <;> rfl]
            rw [flookup, if_neg hpne]
            rw [hrec] at ih
            exact ih

theorem sanitiseEntries_noflags_no_throw (xssF : String → String) (opts : SanitiseOptions)
    (data : JVal) (h1 : opts.isInternal = false) (h2 : opts.isReadOnly = false) :
    ∀ props : List (String × JVal), (sanitiseEntries xssF opts data props).2 = none
  | [] => by simp [sanitiseEntries]
  | (p0, c0) :: tl => by
      have ih := sanitiseEntries_noflags_no_throw xssF opts data h1 h2 tl
      have hoF : ((opts.isInternal && jTruthy (jget c0 "isInternal")) ||
          (opts.isReadOnly && jTruthy (jget c0 "isReadOnly"))) = false := by
        rw [h1, h2]
        simp
      rcases hd0 : jget data p0 with _ | v0
      · simp [sanitiseEntries, hd0, ih]
      · simp only [sanitiseEntries, hd0]
        simp only [hoF, if_false, Bool.false_eq_true]
        rcases hrec : sanitiseEntries xssF opts data tl with ⟨restOut, thrown⟩
        rw [hrec] at ih
        simp at ih
        simp [hrec, ih]

theorem sanitiseEntries_passthrough (xssF : String → String) (opts : SanitiseOptions)
    (data : JVal) (prop : String) (cfg v : JVal)
    (h1 : opts.isInternal = false) (h2 : opts.isReadOnly = false)
    (hdata : jget data prop = some v) :
    ∀ props : List (String × JVal), (prop, cfg) ∈ props →
      ∃ w, flookup prop (sanitiseEntries xssF opts data props).1 = some w
  | [], hmem => by simp at hmem
  | (p0, c0) :: tl, hmem => by
      have hoF : ((opts.isInternal && jTruthy (jget c0 "isInternal")) ||
          (opts.isReadOnly && jTruthy (jget c0 "isReadOnly"))) = false := by
        rw [h1, h2]
        simp
      rcases hrec : sanitiseEntries xssF opts data tl with ⟨restOut, thrown⟩
      by_cases hk : p0 = prop
      · subst hk
        have hsplit : (sanitiseEntries xssF opts data ((p0, c0) :: tl)) =
            ((p0, if jget c0 "type" = some (JVal.str "object") &&
                jTruthy (jget c0 "properties") then
              JVal.obj (sanitiseNested xssF opts c0 v).1
            else if jget c0 "type" = some (JVal.str "string") && opts.sanitiseHtml then
              xssApply xssF v
            else v) :: restOut, thrown) := by
          simp only [sanitiseEntries, hdata]
          simp only [hoF, if_false, Bool.false_eq_true]
          simp [hrec]
          split_ifs <;> rfl
        rw [hsplit]
        exact ⟨_, by rw [flookup, if_pos rfl]⟩
      · rcases List.mem_cons.mp hmem with heq | hmemtl
        · rw [Prod.mk.injEq] at heq
          exact absurd heq.1.symm hk
        · obtain ⟨w, hw⟩ := sanitiseEntries_passthrough xssF opts data prop cfg v h1 h2 hdata tl hmemtl
          rcases hd0 : jget data p0 with _ | v0
          · refine ⟨w, ?_⟩
            rw [show (sanitiseEntries xssF opts data ((p0, c0) :: tl)) =
                sanitiseEntries xssF opts data tl by simp [sanitiseEntries, hd0]]
            exact hw
          · refine ⟨w, ?_⟩
            rw [show (sanitiseEntries xssF opts data ((p0, c0) :: tl)).1 =
                (p0, if jget c0 "type" = some (JVal.str "object") &&
                    jTruthy (jget c0 "properties") then
                  JVal.obj (sanitiseNested xssF opts c0 v0).1
                else if jget c0 "type" = some (JVal.str "string") && opts.sanitiseHtml then
                  xssApply xssF v0
                else v0) :: restOut by
              simp only [sanitiseEntries, hd0]
              simp only [hoF, if_false, Bool.false_eq_true]
              simp [hrec]
              split_ifs <;> rfl]
            rw [flookup, if_neg hk]
            rw [hrec] at hw
            exact hw

/-- Claim C8: for an input containing a property the schema flags
`isInternal` (respectively `isReadOnly`), `sanitise` with the matching
option fails with MODIFY_PROTECTED_ATTR under `strict: true` (the
default); with `strict: false` it returns successfully with that
property omitted from the output; and with both options at their
defaults (`false`) the property passes through into the output. -/
theorem c8_sanitise_protected_attributes (xssF : String → String) (schema data : JVal)
    (pfields : List (String × JVal)) (prop : String) (cfg v : JVal)
    (hschema : jget schema "properties" = some (JVal.obj pfields))
    (hnodup : (pfields.map Prod.fst).Nodup)
    (hmem : (prop, cfg) ∈ pfields)
    (hdata : jget data prop = some v) :
    (jTruthy (jget cfg "isInternal") = true →
       (∃ a, sanitise xssF schema data { isInternal := true } =
           SanitiseResult.modifyProtectedAttr a) ∧
       (∃ m, sanitise xssF schema data { isInternal := true, strict := false } =
           SanitiseResult.ok (JVal.obj m) ∧ flookup prop m = none)) ∧
    (jTruthy (jget cfg "isReadOnly") = true →
       (∃ a, sanitise xssF schema data { isReadOnly := true } =
           SanitiseResult.modifyProtectedAttr a) ∧
       (∃ m, sanitise xssF schema data { isReadOnly := true, strict := false } =
           SanitiseResult.ok (JVal.obj m) ∧ flookup prop m = none)) ∧
    (∃ m, sanitise xssF schema data {} = SanitiseResult.ok (JVal.obj m) ∧
       flookup prop m ≠ none) := by
  have hs : ∀ opts : SanitiseOptions, sanitise xssF schema data opts =
      (match sanitiseEntries xssF opts data pfields with
       | (memo, none) => SanitiseResult.ok (JVal.obj memo)
       | (_, some a) => SanitiseResult.modifyProtectedAttr a) := by
    intro opts
    unfold sanitise
    rw [hschema]
  refine ⟨?_, ?_, ?_⟩
  · intro hint
    constructor
    · obtain ⟨a, ha⟩ := sanitiseEntries_protected_throws xssF
        { isInternal := true } data pfields prop cfg v rfl hmem hdata (by simp [hint])
      rcases hres : sanitiseEntries xssF { isInternal := true } data pfields with ⟨memo, thrown⟩
      rw [hres] at ha
      simp at ha
      refine ⟨a, ?_⟩
      rw [hs, hres, ha]
    · have hnone := sanitiseEntries_nonstrict_no_throw xssF
        { isInternal := true, strict := false } data rfl pfields
      rcases hres : sanitiseEntries xssF { isInternal := true, strict := false }
          data pfields with ⟨memo, thrown⟩
      rw [hres] at hnone
      simp at hnone
      refine ⟨memo, ?_, ?_⟩
      · rw [hs, hres, hnone]
      · have := sanitiseEntries_omit_absent xssF { isInternal := true, strict := false }
          data prop cfg rfl (by simp [hint]) pfields hnodup hmem
        rw [hres] at this
        exact this
  · intro hro
    constructor
    · obtain ⟨a, ha⟩ := sanitiseEntries_protected_throws xssF
        { isReadOnly := true } data pfields prop cfg v rfl hmem hdata (by simp [hro])
      rcases hres : sanitiseEntries xssF { isReadOnly := true } data pfields with ⟨memo, thrown⟩
      rw [hres] at ha
      simp at ha
      refine ⟨a, ?_⟩
      rw [hs, hres, ha]
    · have hnone := sanitiseEntries_nonstrict_no_throw xssF
        { isReadOnly := true, strict := false } data rfl pfields
      rcases hres : sanitiseEntries xssF { isReadOnly := true, strict := false }
          data pfields with ⟨memo, thrown⟩
      rw [hres] at hnone
      simp at hnone
      refine ⟨memo, ?_, ?_⟩
      · rw [hs, hres, hnone]
      · have := sanitiseEntries_omit_absent xssF { isReadOnly := true, strict := false }
          data prop cfg rfl (by simp [hro]) pfields hnodup hmem
        rw [hres] at this
        exact this
  · have hnone := sanitiseEntries_noflags_no_throw xssF {} data rfl rfl pfields
    obtain ⟨w, hw⟩ := sanitiseEntries_passthrough xssF {} data prop cfg v rfl rfl hdata
      pfields hmem
    rcases hres : sanitiseEntries xssF {} data pfields with ⟨memo, thrown⟩
    rw [hres] at hnone hw
    simp at hnone
    refine ⟨memo, ?_, ?_⟩
    · rw [hs, hres, hnone]
    · simp only at hw
      rw [hw]
      simp

theorem c8_witness :
    jget (JVal.obj [("properties", JVal.obj [
        ("secret", JVal.obj [("type", JVal.str "string"), ("isInternal", JVal.bool true)]),
        ("name", JVal.obj [("type", JVal.str "string")])])]) "properties" =
      some (JVal.obj [
        ("secret", JVal.obj [("type", JVal.str "string"), ("isInternal", JVal.bool true)]),
        ("name", JVal.obj [("type", JVal.str "string")])]) ∧
    ((jTruthy (jget (JVal.obj [("type", JVal.str "string"), ("isInternal", JVal.bool true)])
        "isInternal") = true →
       (∃ a, sanitise id (JVal.obj [("properties", JVal.obj [
            ("secret", JVal.obj [("type", JVal.str "string"), ("isInternal", JVal.bool true)]),
            ("name", JVal.obj [("type", JVal.str "string")])])])
          (JVal.obj [("secret", JVal.str "v"), ("name", JVal.str "n")])
          { isInternal := true } = SanitiseResult.modifyProtectedAttr a) ∧
       (∃ m, sanitise id (JVal.obj [("properties", JVal.obj [
            ("secret", JVal.obj [("type", JVal.str "string"), ("isInternal", JVal.bool true)]),
            ("name", JVal.obj [("type", JVal.str "string")])])])
          (JVal.obj [("secret", JVal.str "v"), ("name", JVal.str "n")])
          { isInternal := true, strict := false } = SanitiseResult.ok (JVal.obj m) ∧
          flookup "secret" m = none)) ∧
     (jTruthy (jget (JVal.obj [("type", JVal.str "string"), ("isInternal", JVal.bool true)])
        "isReadOnly") = true →
       (∃ a, sanitise id (JVal.obj [("properties", JVal.obj [
            ("secret", JVal.obj [("type", JVal.str "string"), ("isInternal", JVal.bool true)]),
            ("name", JVal.obj [("type", JVal.str "string")])])])
          (JVal.obj [("secret", JVal.str "v"), ("name", JVal.str "n")])
          { isReadOnly := true } = SanitiseResult.modifyProtectedAttr a) ∧
       (∃ m, sanitise id (JVal.obj [("properties", JVal.obj [
            ("secret", JVal.obj [("type", JVal.str "string"), ("isInternal", JVal.bool true)]),
            ("name", JVal.obj [("type", JVal.str "string")])])])
          (JVal.obj [("secret", JVal.str "v"), ("name", JVal.str "n")])
          { isReadOnly := true, strict := false } = SanitiseResult.ok (JVal.obj m) ∧
          flookup "secret" m = none)) ∧
     (∃ m, sanitise id (JVal.obj [("properties", JVal.obj [
          ("secret", JVal.obj [("type", JVal.str "string"), ("isInternal", JVal.bool true)]),
          ("name", JVal.obj [("type", JVal.str "string")])])])
        (JVal.obj [("secret", JVal.str "v"), ("name", JVal.str "n")]) {} =
        SanitiseResult.ok (JVal.obj m) ∧ flookup "secret" m ≠ none)) :=
  ⟨by decide,
    c8_sanitise_protected_attributes id
      (JVal.obj [("properties", JVal.obj [
        ("secret", JVal.obj [("type", JVal.str "string"), ("isInternal", JVal.bool true)]),
        ("name", JVal.obj [("type", JVal.str "string")])])])
      (JVal.obj [("secret", JVal.str "v"), ("name", JVal.str "n")])
      [("secret", JVal.obj [("type", JVal.str "string"), ("isInternal", JVal.bool true)]),
        ("name", JVal.obj [("type", JVal.str "string")])]
      "secret" (JVal.obj [("type", JVal.str "string"), ("isInternal", JVal.bool true)])
      (JVal.str "v") (by decide) (by decide) (by decide) (by decide)⟩

def rootBaseDoc : JVal := JVal.obj [("$anchor", JVal.str "base")]

def extDoc (b e : String) (Pe : List (String × JVal)) : JVal :=
  JVal.obj [("$anchor", JVal.str e),
    ("$patch", JVal.obj [("source", JVal.obj [("$ref", JVal.str b)]),
                         ("with", JVal.obj [("properties", JVal.obj Pe)])])]

def baseDoc (b : String) (Pb : List (String × JVal)) : JVal :=
  JVal.obj [("$anchor", JVal.str b), ("properties", JVal.obj Pb)]

def c2Fsys (b e : String) (Pb Pe : List (String × JVal)) : List (String × JVal) :=
  [("/base.json", rootBaseDoc), ("/ext.json", extDoc b e Pe), ("/new.json", baseDoc b Pb)]

theorem c2_base_load (b e : String) (Pb Pe : List (String × JVal)) (f : Nat)
    (st : RegState) (opts : LoadOptions)
    (hpath : flookup "base" st.schemaPaths = some "/base.json")
    (hext : flookup "base" st.schemaExtensions = none)
    (hcache : st.cacheEnabled = false) :
    getSchema (f + 3) (c2Fsys b e Pb Pe) st "base" opts =
      Except.ok (mkGetResult opts ⟨rootBaseDoc⟩, cacheSet st ⟨rootBaseDoc⟩) := by
  unfold getSchema
  simp only [hpath, Option.isNone_some, Bool.false_eq_true, if_false, ite_false, cacheGet,
    hcache, if_neg]
  rw [ite_self]
  have hload : loadSchema (f + 2) (c2Fsys b e Pb Pe) st "base" opts =
      Except.ok (⟨rootBaseDoc⟩, cacheSet st ⟨rootBaseDoc⟩) := by
    unfold loadSchema loadSchemaBase
    simp [hpath, hext, c2Fsys, rootBaseDoc, flookup, jget, jget2, jget3, cacheSet, fset]
  rw [hload]

theorem c2_ext_load (b e : String) (Pb Pe : List (String × JVal)) (f : Nat)
    (st : RegState) (opts : LoadOptions)
    (he1 : e ≠ "base")
    (hpe : flookup e st.schemaPaths = some "/ext.json")
    (hee : flookup e st.schemaExtensions = none)
    (hpath : flookup "base" st.schemaPaths = some "/base.json")
    (hext : flookup "base" st.schemaExtensions = none)
    (hcache : st.cacheEnabled = false) :
    getSchema (f + 6) (c2Fsys b e Pb Pe) st e opts =
      Except.ok (mkGetResult opts ⟨extDoc b e Pe⟩,
        cacheSet (cacheSet st ⟨rootBaseDoc⟩) ⟨extDoc b e Pe⟩) := by
  unfold getSchema
  simp only [hpe, Option.isNone_some, Bool.false_eq_true, if_false, ite_false, cacheGet,
    hcache, if_neg]
  rw [ite_self]
  have hbase : getSchema (f + 3) (c2Fsys b e Pb Pe) st "base" { compiled := false } =
      Except.ok (GetResult.raw rootBaseDoc, cacheSet st ⟨rootBaseDoc⟩) := by
    rw [c2_base_load b e Pb Pe f st { compiled := false } hpath hext hcache]
    rfl
  have hread : (flookup e st.schemaPaths).bind (fun p => flookup p (c2Fsys b e Pb Pe)) =
      some (extDoc b e Pe) := by
    rw [hpe]
    simp [c2Fsys, flookup]
  have hmerge : jget3 (extDoc b e Pe) "$merge" "source" "$ref" = none := by
    simp [extDoc, jget3, jget2, jget, flookup]
  have hbaseStep : loadSchemaBase (f + 4) (c2Fsys b e Pb Pe) st (extDoc b e Pe) =
      Except.ok (extDoc b e Pe, cacheSet st ⟨rootBaseDoc⟩) := by
    unfold loadSchemaBase
    simp only [show jget (extDoc b e Pe) "$anchor" = some (JVal.str e) from by
      simp [extDoc, jget, flookup]]
    simp only [show (some (JVal.str e) = some (JVal.str "base")) = False from by
      simp [he1]]
    simp only [if_false, hbase]
    have happ : applyPatch (extDoc b e Pe) (asRawSchema (GetResult.raw rootBaseDoc))
        { strict := false, extendAnnotations := false } = (extDoc b e Pe, PatchLog.applied) := by
      simp [applyPatch, patchBody, mergePropsStep, concatAll, concatStep, requiredStep,
        asRawSchema, rootBaseDoc, extDoc, jget, jget2, flookup, jTruthy, jTruthyV,
        jLengthTruthy, copyAnnotList, copyAnnot]
    rw [happ]
  have hextsA : flookup e (cacheSet st (⟨rootBaseDoc⟩ : CompiledSchema)).schemaExtensions
      = none := by
    simp [cacheSet, rootBaseDoc, jget, flookup, hee]
  have hanchorE : jget (extDoc b e Pe) "$anchor" = some (JVal.str e) := by
    simp [extDoc, jget, flookup]
  have hload : loadSchema (f + 5) (c2Fsys b e Pb Pe) st e opts =
      Except.ok (⟨extDoc b e Pe⟩, cacheSet (cacheSet st ⟨rootBaseDoc⟩) ⟨extDoc b e Pe⟩) := by
    unfold loadSchema
    simp only [hread, hmerge, hbaseStep, hextsA]
  rw [hload]

theorem cacheSet_schemaPaths (st : RegState) (c : CompiledSchema) :
    (cacheSet st c).schemaPaths = st.schemaPaths := by
  unfold cacheSet
  split <;> rfl

theorem cacheSet_schemaExtensions (st : RegState) (c : CompiledSchema) :
    (cacheSet st c).schemaExtensions = st.schemaExtensions := by
  unfold cacheSet
  split <;> rfl

theorem cacheSet_cacheEnabled (st : RegState) (c : CompiledSchema) :
    (cacheSet st c).cacheEnabled = st.cacheEnabled := by
  unfold cacheSet
  split <;> rfl

/-- C2: a schema may be registered whose extension target is itself registered later
(forward reference): after extendSchema records the extension and registerSchema succeeds
on the extended schema, getSchema on that name loads the base document, applies the
registered extension fragment via applyPatch, and returns the merged schema in which
every property of the extension fragment is present, with fresh keys keeping the
fragment value (lodash defaultsDeep of base properties over fragment properties). -/
theorem c2_forward_referenced_extension (b e : String) (Pb Pe : List (String × JVal))
    (hb0 : b ≠ "") (hb1 : b ≠ "base") (he1 : e ≠ "base") (hbe : b ≠ e) :
    (registerSchema (c2Fsys b e Pb Pe) (fun _ => [])
        (extendSchema ⟨[("base", "/base.json"), (e, "/ext.json")], [], false, []⟩ b e)
        "/new.json" false).2 = Except.ok (b, "/new.json") ∧
    (∃ st', getSchema 12 (c2Fsys b e Pb Pe)
        (registerSchema (c2Fsys b e Pb Pe) (fun _ => [])
          (extendSchema ⟨[("base", "/base.json"), (e, "/ext.json")], [], false, []⟩ b e)
          "/new.json" false).1 b { compiled := false } =
      Except.ok (GetResult.raw (JVal.obj [("$anchor", JVal.str b),
        ("properties", ddVal (JVal.obj Pb) (JVal.obj Pe))]), st')) ∧
    (∀ k v, flookup k Pe = some v →
       ∃ w, jget (ddVal (JVal.obj Pb) (JVal.obj Pe)) k = some w) ∧
    (∀ k v, flookup k Pe = some v → flookup k Pb = none →
       jget (ddVal (JVal.obj Pb) (JVal.obj Pe)) k = some v) := by
  have hb1' : ¬ ("base" = b) := fun h => hb1 h.symm
  have hbe' : ¬ (e = b) := fun h => hbe h.symm
  have he1' : ¬ ("base" = e) := fun h => he1 h.symm
  have hreg : registerSchema (c2Fsys b e Pb Pe) (fun _ => [])
      (extendSchema ⟨[("base", "/base.json"), (e, "/ext.json")], [], false, []⟩ b e)
      "/new.json" false =
      (⟨[("base", "/base.json"), (e, "/ext.json"), (b, "/new.json")], [(b, [e])], false, []⟩,
        Except.ok (b, "/new.json")) := by
    unfold extendSchema
    simp only [flookup, fset]
    unfold registerSchema registerSchemaFinish
    simp [c2Fsys, flookup, fset, baseDoc, jget, jget2, jget3, jTruthy, hb0, hb1', hbe']
  rw [hreg]
  set st2 : RegState :=
    ⟨[("base", "/base.json"), (e, "/ext.json"), (b, "/new.json")], [(b, [e])], false, []⟩
    with hst2
  refine ⟨rfl, ?_, ?_, ?_⟩
  · -- the build of b
    have hp2base : flookup "base" st2.schemaPaths = some "/base.json" := by
      simp [hst2, flookup]
    have he2base : flookup "base" st2.schemaExtensions = none := by
      simp [hst2, flookup, hb1]
    have hc2 : st2.cacheEnabled = false := rfl
    have hpb : flookup b st2.schemaPaths = some "/new.json" := by
      simp [hst2, flookup, hb1', hbe']
    set stA : RegState := cacheSet st2 ⟨rootBaseDoc⟩ with hstA
    have hbase : getSchema 9 (c2Fsys b e Pb Pe) st2 "base" { compiled := false } =
        Except.ok (GetResult.raw rootBaseDoc, stA) := by
      rw [show (9 : Nat) = 6 + 3 from rfl,
        c2_base_load b e Pb Pe 6 st2 { compiled := false } hp2base he2base hc2]
      rfl
    have hreadB : (flookup b st2.schemaPaths).bind (fun p => flookup p (c2Fsys b e Pb Pe)) =
        some (baseDoc b Pb) := by
      rw [hpb]
      simp [c2Fsys, flookup]
    have hmergeB : jget3 (baseDoc b Pb) "$merge" "source" "$ref" = none := by
      simp [baseDoc, jget3, jget2, jget, flookup]
    have hanchorB : jget (baseDoc b Pb) "$anchor" = some (JVal.str b) := by
      simp [baseDoc, jget, flookup]
    have hbaseStep : loadSchemaBase 10 (c2Fsys b e Pb Pe) st2 (baseDoc b Pb) =
        Except.ok (baseDoc b Pb, stA) := by
      unfold loadSchemaBase
      simp only [hanchorB]
      simp only [show (some (JVal.str b) = some (JVal.str "base")) = False from by
        simp [hb1]]
      simp only [if_false, hbase]
      have happB : applyPatch (baseDoc b Pb) (asRawSchema (GetResult.raw rootBaseDoc))
          { strict := false, extendAnnotations := false } =
          (baseDoc b Pb, PatchLog.applied) := by
        simp [applyPatch, patchBody, mergePropsStep, concatAll, concatStep, requiredStep,
          asRawSchema, rootBaseDoc, jget, jget2, flookup, jTruthy, jTruthyV, jLengthTruthy]
      rw [happB]
    have hextB : flookup b stA.schemaExtensions = some [e] := by
      rw [hstA, cacheSet_schemaExtensions]
      simp [hst2, flookup]
    have hextLoad : getSchema 9 (c2Fsys b e Pb Pe) stA e { useCache := true } =
        Except.ok (GetResult.fn ⟨extDoc b e Pe⟩,
          cacheSet (cacheSet stA ⟨rootBaseDoc⟩) ⟨extDoc b e Pe⟩) := by
      rw [show (9 : Nat) = 3 + 6 from rfl,
        c2_ext_load b e Pb Pe 3 stA { useCache := true } he1
          (by rw [hstA, cacheSet_schemaPaths]; simp [hst2, flookup, hb1', hbe', he1'])
          (by rw [hstA, cacheSet_schemaExtensions]; simp [hst2, flookup, hbe', hbe])
          (by rw [hstA, cacheSet_schemaPaths]; exact hp2base)
          (by rw [hstA, cacheSet_schemaExtensions]; try exact he2base)
          (by rw [hstA, cacheSet_cacheEnabled]; try exact hc2)]
      rfl
    have happE : applyPatch (baseDoc b Pb) (extDoc b e Pe) { extendAnnotations := false } =
        (JVal.obj [("$anchor", JVal.str b),
          ("properties", ddVal (JVal.obj Pb) (JVal.obj Pe))], PatchLog.applied) := by
      simp [applyPatch, patchBody, mergePropsStep, concatAll, concatStep, requiredStep,
        baseDoc, extDoc, jget, jget2, flookup, jTruthy, jTruthyV, jLengthTruthy, isRefType,
        jset, fset]
    have hextApply : applyExtensionList 10 (c2Fsys b e Pb Pe) stA { compiled := false }
        [e] (baseDoc b Pb) =
        Except.ok (JVal.obj [("$anchor", JVal.str b),
            ("properties", ddVal (JVal.obj Pb) (JVal.obj Pe))],
          cacheSet (cacheSet stA ⟨rootBaseDoc⟩) ⟨extDoc b e Pe⟩) := by
      unfold applyExtensionList
      simp only [hextLoad]
      simp only [asRawSchema, if_true, happE]
      unfold applyExtensionList
      rfl
    have hanchorBuilt : jget (JVal.obj [("$anchor", JVal.str b),
        ("properties", ddVal (JVal.obj Pb) (JVal.obj Pe))]) "$anchor" =
        some (JVal.str b) := by
      simp [jget, flookup]
    have hload : loadSchema 11 (c2Fsys b e Pb Pe) st2 b { compiled := false } =
        Except.ok (⟨JVal.obj [("$anchor", JVal.str b),
            ("properties", ddVal (JVal.obj Pb) (JVal.obj Pe))]⟩,
          cacheSet (cacheSet (cacheSet stA ⟨rootBaseDoc⟩) ⟨extDoc b e Pe⟩)
            ⟨JVal.obj [("$anchor", JVal.str b),
              ("properties", ddVal (JVal.obj Pb) (JVal.obj Pe))]⟩) := by
      unfold loadSchema
      simp only [hreadB, hmergeB, hbaseStep, hextB, hextApply]
    refine ⟨cacheSet (cacheSet (cacheSet stA ⟨rootBaseDoc⟩) ⟨extDoc b e Pe⟩)
      ⟨JVal.obj [("$anchor", JVal.str b),
        ("properties", ddVal (JVal.obj Pb) (JVal.obj Pe))]⟩, ?_⟩
    unfold getSchema
    simp only [hpb, Option.isNone_some, Bool.false_eq_true, if_false, ite_false, cacheGet,
      hc2, if_neg]
    rw [ite_self, hload]
    rfl
  · intro k v hk
    rw [ddVal_obj_lookup, hk]
    rcases hkb : flookup k Pb with _ | dv <;> simp [hkb]
  · intro k v hk hkb
    rw [ddVal_obj_lookup, hkb, hk]

theorem c2_witness :
    ("course" : String) ≠ "" ∧
    ("course" : String) ≠ "base" ∧
    ("courseext" : String) ≠ "base" ∧
    ("course" : String) ≠ "courseext" ∧
    ((registerSchema (c2Fsys "course" "courseext"
          [("title", JVal.obj [("type", JVal.str "string")])]
          [("heroImage", JVal.obj [("type", JVal.str "string")])]) (fun _ => [])
        (extendSchema ⟨[("base", "/base.json"), ("courseext", "/ext.json")], [], false, []⟩
          "course" "courseext")
        "/new.json" false).2 = Except.ok ("course", "/new.json") ∧
    (∃ st', getSchema 12 (c2Fsys "course" "courseext"
          [("title", JVal.obj [("type", JVal.str "string")])]
          [("heroImage", JVal.obj [("type", JVal.str "string")])])
        (registerSchema (c2Fsys "course" "courseext"
            [("title", JVal.obj [("type", JVal.str "string")])]
            [("heroImage", JVal.obj [("type", JVal.str "string")])]) (fun _ => [])
          (extendSchema ⟨[("base", "/base.json"), ("courseext", "/ext.json")], [], false, []⟩
            "course" "courseext")
          "/new.json" false).1 "course" { compiled := false } =
      Except.ok (GetResult.raw (JVal.obj [("$anchor", JVal.str "course"),
        ("properties", ddVal
          (JVal.obj [("title", JVal.obj [("type", JVal.str "string")])])
          (JVal.obj [("heroImage", JVal.obj [("type", JVal.str "string")])]))]), st')) ∧
    (∀ k v, flookup k [("heroImage", JVal.obj [("type", JVal.str "string")])] = some v →
       ∃ w, jget (ddVal
          (JVal.obj [("title", JVal.obj [("type", JVal.str "string")])])
          (JVal.obj [("heroImage", JVal.obj [("type", JVal.str "string")])])) k = some w) ∧
    (∀ k v, flookup k [("heroImage", JVal.obj [("type", JVal.str "string")])] = some v →
       flookup k [("title", JVal.obj [("type", JVal.str "string")])] = none →
       jget (ddVal
          (JVal.obj [("title", JVal.obj [("type", JVal.str "string")])])
          (JVal.obj [("heroImage", JVal.obj [("type", JVal.str "string")])])) k = some v)) :=
  ⟨by decide, by decide, by decide, by decide,
    c2_forward_referenced_extension "course" "courseext"
      [("title", JVal.obj [("type", JVal.str "string")])]
      [("heroImage", JVal.obj [("type", JVal.str "string")])]
      (by decide) (by decide) (by decide) (by decide)⟩
